import Mathlib

/-!
Shallow embedding of the `ajuna-games` repository (Dot4Gravity board engine and
BattleMogs transition engine) together with theorems settling the spec claims.

Machine integers are modelled as `Nat` with explicit `%`/`min` where the Rust
code wraps or saturates.  Fallible Rust functions returning `Result` are
modelled with `Except`.  Host capabilities (asset store, escrow balances,
randomness, block height) are passed explicitly as a record.
-/

namespace D4G

/-- Players are account identifiers; the Rust code is generic over a `Player`
type with decidable equality, the engine's own tests use `u8` constants. -/
abbrev Player := Nat

/-- A cell of the board (`Cell` in `dot4gravity/src/lib.rs`).  `Bomb` carries
the two occupant slots of `[Option<PlayerIndex>; NUM_OF_PLAYERS]`. -/
inductive Cell where
  | Empty : Cell
  | Bomb : Option Nat → Option Nat → Cell
  | Block : Cell
  | Stone : Nat → Cell
deriving DecidableEq, Repr

/-- `BOARD_WIDTH` constant. -/
def boardWidth : Nat := 10

/-- `BOARD_HEIGHT` constant. -/
def boardHeight : Nat := 10

/-- `NUM_OF_BOMBS_PER_PLAYER` constant. -/
def numOfBombsPerPlayer : Nat := 3

/-- `NUM_OF_BLOCKS` constant. -/
def numOfBlocks : Nat := 10

/-- `INITIAL_SEED` constant. -/
def initialSeed : Nat := 123456

/-- Largest `u32` value, used to model the saturating arithmetic of the
linear congruential generator. -/
def u32Max : Nat := 4294967295

/-- The linear congruential generator step used inside `Coordinates::random`:
`MULTIPLIER.saturating_mul(seed).saturating_add(INCREMENT) % MODULUS` with
`MULTIPLIER = 75`, `INCREMENT = 74`, `MODULUS = 2^16`, on `u32` seeds. -/
def lcg (s : Nat) : Nat := (min (min (75 * s) u32Max + 74) u32Max) % 65536

/-- Board coordinates (`Coordinates` struct). -/
structure Coords where
  row : Nat
  col : Nat
deriving DecidableEq, Repr

/-- `Coordinates::random`: two consecutive LCG steps, row and column taken
modulo `BOARD_WIDTH - 1` and `BOARD_HEIGHT - 1` respectively; returns the
second intermediate seed as the new seed. -/
def coordRandom (seed : Nat) : Coords × Nat :=
  let s1 := lcg seed
  let s2 := lcg s1
  (⟨s1 % (boardWidth - 1), s2 % (boardHeight - 1)⟩, s2)

/-- Modelled from the spec: `Coordinates::is_inside_board` comes from the
`Bound` trait in `dot4gravity/src/traits.rs`, a file missing from the source
snapshot; the spec fixes the board as a 10×10 grid, so a coordinate is inside
the board iff row and column are below the board dimensions. -/
def Coords.insideBoard (c : Coords) : Bool := c.row < boardHeight && c.col < boardWidth

/-- Sides of the board from which a stone can be dropped. -/
inductive Side where
  | North : Side
  | East : Side
  | South : Side
  | West : Side
deriving DecidableEq, Repr

/-- `Coordinates::is_opposite_cell`. -/
def Coords.isOppositeCell (c : Coords) (s : Side) : Bool :=
  match s with
  | .North => c.row = boardHeight - 1
  | .East => c.col = 0
  | .South => c.row = 0
  | .West => c.col = boardWidth - 1

/-- `Side::bound_coordinates`: the entry cell for a drop from the given side. -/
def Side.boundCoordinates (s : Side) (position : Nat) : Coords :=
  match s with
  | .North => ⟨0, position⟩
  | .South => ⟨boardHeight - 1, position⟩
  | .West => ⟨position, 0⟩
  | .East => ⟨position, boardWidth - 1⟩

/-- The board, a 10×10 grid of cells; modelled as a total function so that
statements about cells outside the grid can be expressed.  The Rust code never
indexes `cells` outside `0..10`. -/
def Board := Nat → Nat → Cell

/-- The empty board (`Board::new` / `Default`). -/
def emptyBoard : Board := fun _ _ => .Empty

/-- `Board::get_cell`. -/
def getCell (b : Board) (pos : Coords) : Cell := b pos.row pos.col

/-- `Board::update_cell`. -/
def updateCell (b : Board) (pos : Coords) (cell : Cell) : Board :=
  fun r c => if r = pos.row ∧ c = pos.col then cell else b r c

/-- `Cell::is_bomb_droppable`. -/
def Cell.isBombDroppable : Cell → Bool
  | .Empty => true
  | .Bomb _ _ => true
  | _ => false

/-- `Cell::is_explodable`. -/
def Cell.isExplodable (c : Cell) : Bool := c ≠ Cell.Block

/-- `Cell::is_stone_droppable`. -/
def Cell.isStoneDroppable : Cell → Bool
  | .Block => false
  | .Stone _ => false
  | _ => true

/-- `Board::is_bomb_droppable`. -/
def Board.isBombDroppable (b : Board) (pos : Coords) : Bool :=
  pos.insideBoard && (getCell b pos).isBombDroppable

/-- `Board::is_explodable`. -/
def Board.isExplodable (b : Board) (pos : Coords) : Bool :=
  pos.insideBoard && (getCell b pos).isExplodable

/-- `Board::is_stone_droppable`. -/
def Board.isStoneDroppable (b : Board) (pos : Coords) : Bool :=
  pos.insideBoard && (getCell b pos).isStoneDroppable

/-- `Board::player_index_stone`. -/
def Board.playerIndexStone (b : Board) (pos : Coords) : Option Nat :=
  if pos.insideBoard then
    match getCell b pos with
    | .Stone p => some p
    | _ => none
  else none

/-- The nine explosion offsets of `Board::explodable_coordinate`, in source
order. -/
def explosionOffsets : List (Int × Int) :=
  [(0, 0), (-1, -1), (0, -1), (1, -1), (1, 0), (1, 1), (0, 1), (-1, 1), (-1, 0)]

/-- In the Rust code the offset is added in `i8` and cast `as u8`, so a
negative sum wraps modulo 256. -/
def wrapU8 (i : Int) : Nat := (i % 256).toNat

/-- `Board::explodable_coordinate`: the nine cells around a bomb, with the
`i8`-to-`u8` cast wrap of the source. -/
def Board.explodableCoordinate (pos : Coords) : List Coords :=
  explosionOffsets.map fun rc =>
    ⟨wrapU8 (rc.1 + (pos.row : Int)), wrapU8 (rc.2 + (pos.col : Int))⟩

/-- `Board::explode_bomb`: clear every explodable cell around the bomb. -/
def Board.explodeBomb (b : Board) (pos : Coords) : Board :=
  (Board.explodableCoordinate pos).foldl
    (fun b' c => if b'.isExplodable c then updateCell b' c .Empty else b') b

/-- Game phase (`GamePhase`). -/
inductive GamePhase where
  | Bomb : GamePhase
  | Play : GamePhase
deriving DecidableEq, Repr

/-- Game errors (`GameError`). -/
inductive GameError where
  | DroppedBombOutsideBombPhase : GameError
  | DroppedStoneOutsidePlayPhase : GameError
  | NoMoreBombsAvailable : GameError
  | InvalidBombPosition : GameError
  | InvalidStonePosition : GameError
  | NotPlayerTurn : GameError
  | NoPreviousPosition : GameError
  | GameAlreadyFinished : GameError
deriving DecidableEq, Repr

/-- `LastMove` record. -/
structure LastMove where
  player : Player
  side : Side
  position : Nat
deriving DecidableEq, Repr

/-- `GameState`; the fixed arrays `players`, `bombs` and `scores` of length
`NUM_OF_PLAYERS = 2` are modelled as pairs. -/
structure GameState where
  seed : Nat
  board : Board
  phase : GamePhase
  winner : Option Player
  nextPlayer : Player
  players : Player × Player
  bombs : (Player × Nat) × (Player × Nat)
  scores : (Player × Nat) × (Player × Nat)
  lastMove : Option LastMove

/-- `GameState::is_all_bomb_dropped`. -/
def GameState.isAllBombDropped (gs : GameState) : Bool :=
  gs.bombs.1.2 = 0 && gs.bombs.2.2 = 0

/-- `GameState::get_player_bombs` (first matching slot). -/
def GameState.getPlayerBombs (gs : GameState) (p : Player) : Option Nat :=
  if gs.bombs.1.1 = p then some gs.bombs.1.2
  else if gs.bombs.2.1 = p then some gs.bombs.2.2
  else none

/-- `GameState::is_all_player_bomb_dropped`. -/
def GameState.isAllPlayerBombDropped (gs : GameState) (p : Player) : Bool :=
  match gs.getPlayerBombs p with
  | some n => n = 0
  | none => false

/-- `GameState::decrease_player_bombs`: every matching slot is decremented
(`u8` subtraction; the caller guarantees a positive count). -/
def GameState.decreasePlayerBombs (gs : GameState) (p : Player) : GameState :=
  { gs with
    bombs :=
      ((gs.bombs.1.1, if gs.bombs.1.1 = p then gs.bombs.1.2 - 1 else gs.bombs.1.2),
       (gs.bombs.2.1, if gs.bombs.2.1 = p then gs.bombs.2.2 - 1 else gs.bombs.2.2)) }

/-- `GameState::increase_player_score`: every matching slot gets
`*current_score += add_score`, a plain (non-saturating) `u8` addition, which
wraps modulo 256 in a release build (and panics in a debug build). -/
def GameState.increasePlayerScore (gs : GameState) (p : Player) (add : Nat) : GameState :=
  { gs with
    scores :=
      ((gs.scores.1.1, if gs.scores.1.1 = p then (gs.scores.1.2 + add) % 256 else gs.scores.1.2),
       (gs.scores.2.1, if gs.scores.2.1 = p then (gs.scores.2.2 + add) % 256 else gs.scores.2.2)) }

/-- `GameState::is_player_turn`. -/
def GameState.isPlayerTurn (gs : GameState) (p : Player) : Bool := gs.nextPlayer = p

/-- `GameState::player_index`: position of the player in the `players` array.
The Rust code panics (`expect`) when the player is absent; the model returns
index 1 in that case, and every theorem using it assumes the player is one of
the two game players. -/
def GameState.playerIndex (gs : GameState) (p : Player) : Nat :=
  if gs.players.1 = p then 0 else 1

/-- Indexing `players[i]`; the Rust code panics for `i ≥ 2`, the model returns
the second player for every nonzero index. -/
def GameState.playersGet (gs : GameState) (i : Nat) : Player :=
  if i = 0 then gs.players.1 else gs.players.2

/-- `GameState::next_player`: the player after `next_player`, cyclically. -/
def GameState.nextPlayerAfter (gs : GameState) : Player :=
  if gs.players.1 = gs.nextPlayer then gs.players.2 else gs.players.1

/-- `GameState::adjacent_opponent_stone`: number of opponent stones in the
explosion neighbourhood. -/
def GameState.adjacentOpponentStone (gs : GameState) (pos : Coords) (p : Player) : Nat :=
  (Board.explodableCoordinate pos).countP fun c =>
    match gs.board.playerIndexStone c with
    | some q => decide (q ≠ gs.playerIndex p)
    | none => false

/-- `Game::can_drop_bomb`: the guard sequence of the bomb transition, in
source order (phase first, then winner, then remaining bombs, then cell). -/
def canDropBomb (gs : GameState) (pos : Coords) (p : Player) : Except GameError Unit :=
  if gs.phase ≠ GamePhase.Bomb then throw .DroppedBombOutsideBombPhase
  else if gs.winner.isSome then throw .GameAlreadyFinished
  else if gs.isAllPlayerBombDropped p then throw .NoMoreBombsAvailable
  else if ¬gs.board.isBombDroppable pos then throw .InvalidBombPosition
  else pure ()

/-- `Game::can_drop_stone`: the guard sequence of the stone transition, in
source order (phase first, then winner, then turn, then entry cell). -/
def canDropStone (gs : GameState) (side : Side) (position : Nat) (p : Player) :
    Except GameError Unit :=
  if gs.phase ≠ GamePhase.Play then throw .DroppedStoneOutsidePlayPhase
  else if gs.winner.isSome then throw .GameAlreadyFinished
  else if ¬gs.isPlayerTurn p then throw .NotPlayerTurn
  else if ¬gs.board.isStoneDroppable (side.boundCoordinates position) then
    throw .InvalidStonePosition
  else pure ()

/-- The block-placement loop of `Game::new_game`, with explicit fuel: draw a
coordinate, reject duplicates, place a `Block` otherwise, until no block
remains.  `none` means the fuel ran out before placement finished (the Rust
loop would still be running). -/
def placeBlocks : Nat → Board → List Coords → Nat → Nat → Option (Board × Nat)
  | 0, _, _, _, _ => none
  | fuel + 1, board, blocks, remaining, seed =>
    if remaining = 0 then some (board, seed)
    else
      let (c, seed') := coordRandom seed
      if c ∈ blocks then placeBlocks fuel board blocks remaining seed'
      else placeBlocks fuel (updateCell board c .Block) (c :: blocks) (remaining - 1) seed'

/-- `Game::new_game` with explicit fuel for the block-placement loop. -/
def newGameFuel (fuel : Nat) (player1 player2 : Player) (seed : Option Nat) :
    Option GameState :=
  (placeBlocks fuel emptyBoard [] numOfBlocks (seed.getD initialSeed)).map fun bs =>
    { seed := bs.2
      board := bs.1
      phase := .Bomb
      winner := none
      nextPlayer := player1
      players := (player1, player2)
      scores := ((player1, 0), (player2, 0))
      bombs := ((player1, numOfBombsPerPlayer), (player2, numOfBombsPerPlayer))
      lastMove := none }

/-- `Game::drop_bomb`. -/
def dropBomb (gs : GameState) (pos : Coords) (p : Player) : Except GameError GameState := do
  canDropBomb gs pos p
  let pidx := gs.playerIndex p
  match getCell gs.board pos with
  | .Empty =>
    let gs := { gs with board := updateCell gs.board pos (.Bomb (some pidx) none) }
    let gs := gs.decreasePlayerBombs p
    if gs.isAllBombDropped then pure { gs with phase := .Play } else pure gs
  | .Bomb (some otherIdx) none =>
    if otherIdx ≠ pidx then
      let gs := { gs with board := updateCell gs.board pos (.Bomb (some otherIdx) (some pidx)) }
      let gs := gs.decreasePlayerBombs p
      if gs.isAllBombDropped then pure { gs with phase := .Play } else pure gs
    else
      throw .InvalidBombPosition
  | _ => throw .InvalidBombPosition

/-- Bomb handling shared by all four slide loops of `Game::drop_stone`:
score the adjacent opponent stones (`NB_POINT_ENEMY_STONE_DESTROYED = 1` per
stone) and explode the bomb. -/
def hitBomb (gs : GameState) (pos : Coords) (p : Player) : GameState :=
  let gs := gs.increasePlayerScore p (1 * gs.adjacentOpponentStone pos p)
  { gs with board := gs.board.explodeBomb pos }

/-- The `Side::North` slide loop of `drop_stone`: `row` counts up from 0 while
`row < BOARD_HEIGHT`; the fuel argument is `BOARD_HEIGHT - row`. -/
def slideNorth (p : Player) (pidx position : Nat) :
    Nat → Nat → GameState → Except GameError GameState
  | 0, _, gs => pure gs
  | fuel + 1, row, gs =>
    let pos : Coords := ⟨row, position⟩
    match getCell gs.board pos with
    | .Bomb _ _ => pure (hitBomb gs pos p)
    | .Empty =>
      if pos.isOppositeCell .North then
        pure { gs with board := updateCell gs.board pos (.Stone pidx) }
      else
        slideNorth p pidx position fuel (row + 1) gs
    | .Block =>
      if row > 0 then
        pure { gs with board := updateCell gs.board ⟨pos.row - 1, pos.col⟩ (.Stone pidx) }
      else
        throw .InvalidStonePosition
    | .Stone _ =>
      if row > 0 then
        pure { gs with board := updateCell gs.board ⟨pos.row - 1, pos.col⟩ (.Stone pidx) }
      else
        throw .InvalidStonePosition

/-- The `Side::East` slide loop: `col` counts down from `BOARD_WIDTH - 1`,
breaking after processing column 0; the fuel argument is `col + 1`. -/
def slideEast (p : Player) (pidx position : Nat) :
    Nat → Nat → GameState → Except GameError GameState
  | 0, _, gs => pure gs
  | fuel + 1, col, gs =>
    let pos : Coords := ⟨position, col⟩
    match getCell gs.board pos with
    | .Bomb _ _ => pure (hitBomb gs pos p)
    | .Empty =>
      if pos.isOppositeCell .East then
        pure { gs with board := updateCell gs.board pos (.Stone pidx) }
      else if col = 0 then
        pure gs
      else
        slideEast p pidx position fuel (col - 1) gs
    | .Block =>
      if col < boardWidth - 1 then
        pure { gs with board := updateCell gs.board ⟨pos.row, pos.col + 1⟩ (.Stone pidx) }
      else
        throw .InvalidStonePosition
    | .Stone _ =>
      if col < boardWidth - 1 then
        pure { gs with board := updateCell gs.board ⟨pos.row, pos.col + 1⟩ (.Stone pidx) }
      else
        throw .InvalidStonePosition

/-- The `Side::South` slide loop: `row` counts down from `BOARD_HEIGHT - 1`,
breaking after processing row 0; the fuel argument is `row + 1`. -/
def slideSouth (p : Player) (pidx position : Nat) :
    Nat → Nat → GameState → Except GameError GameState
  | 0, _, gs => pure gs
  | fuel + 1, row, gs =>
    let pos : Coords := ⟨row, position⟩
    match getCell gs.board pos with
    | .Bomb _ _ => pure (hitBomb gs pos p)
    | .Empty =>
      if pos.isOppositeCell .South then
        pure { gs with board := updateCell gs.board pos (.Stone pidx) }
      else if row = 0 then
        pure gs
      else
        slideSouth p pidx position fuel (row - 1) gs
    | .Block =>
      if row < boardHeight - 1 then
        pure { gs with board := updateCell gs.board ⟨pos.row + 1, pos.col⟩ (.Stone pidx) }
      else
        throw .InvalidStonePosition
    | .Stone _ =>
      if row < boardHeight - 1 then
        pure { gs with board := updateCell gs.board ⟨pos.row + 1, pos.col⟩ (.Stone pidx) }
      else
        throw .InvalidStonePosition

/-- The `Side::West` slide loop: `col` counts up from 0 while
`col < BOARD_WIDTH`.  Note the asymmetric guards of the source: the `Block`
arm requires `col > 0` but the `Stone` arm requires `col < BOARD_WIDTH - 1`. -/
def slideWest (p : Player) (pidx position : Nat) :
    Nat → Nat → GameState → Except GameError GameState
  | 0, _, gs => pure gs
  | fuel + 1, col, gs =>
    let pos : Coords := ⟨position, col⟩
    match getCell gs.board pos with
    | .Bomb _ _ => pure (hitBomb gs pos p)
    | .Empty =>
      if pos.isOppositeCell .West then
        pure { gs with board := updateCell gs.board pos (.Stone pidx) }
      else
        slideWest p pidx position fuel (col + 1) gs
    | .Block =>
      if col > 0 then
        pure { gs with board := updateCell gs.board ⟨pos.row, pos.col - 1⟩ (.Stone pidx) }
      else
        throw .InvalidStonePosition
    | .Stone _ =>
      if col < boardWidth - 1 then
        pure { gs with board := updateCell gs.board ⟨pos.row, pos.col - 1⟩ (.Stone pidx) }
      else
        throw .InvalidStonePosition

/-- A 2×2 square with top-left corner `(r, c)` whose four cells are all stones
of the same player: the condition tested by `check_winner_player` at each
corner. -/
def squareAt (b : Board) (r c : Nat) : Option Nat :=
  match b r c with
  | .Stone p =>
    if b r (c + 1) = .Stone p ∧ b (r + 1) c = .Stone p ∧ b (r + 1) (c + 1) = .Stone p then
      some p
    else none
  | _ => none

/-- Incrementing the square counter of one player (`squares[p] += 1`). -/
def bumpCount (counts : Nat → Nat) (p : Nat) : Nat → Nat :=
  fun q => if q = p then counts q + 1 else counts q

/-- The inner column loop of `check_winner_player` for one row: bump the
square counter of the owning player at each detected square, and break out of
the row (returning the triggering player) as soon as a counter reaches 3. -/
def colScan (b : Board) (r : Nat) (counts : Nat → Nat) :
    List Nat → (Nat → Nat) × Option Nat
  | [] => (counts, none)
  | c :: cs =>
    match squareAt b r c with
    | some p =>
      if 3 ≤ bumpCount counts p p then (bumpCount counts p, some p)
      else colScan b r (bumpCount counts p) cs
    | none => colScan b r counts cs

/-- The outer row loop of `check_winner_player`: the counters persist across
rows, and a row's trigger overwrites the winner. -/
def rowsScan (b : Board) (counts : Nat → Nat) (winner : Option Nat) :
    List Nat → (Nat → Nat) × Option Nat
  | [] => (counts, winner)
  | r :: rs =>
    let cw := colScan b r counts (List.range (boardWidth - 1))
    rowsScan b cw.1 (match cw.2 with | some p => some p | none => winner) rs

/-- `Game::check_winner_player`: return unchanged when a winner exists, else
scan every top-left corner `(r, c)` with `r < BOARD_HEIGHT - 1` and
`c < BOARD_WIDTH - 1` and set the winner from the scan. -/
def checkWinnerPlayer (gs : GameState) : GameState :=
  if gs.winner.isSome then gs
  else
    match (rowsScan gs.board (fun _ => 0) none (List.range (boardHeight - 1))).2 with
    | some p => { gs with winner := some (gs.playersGet p) }
    | none => gs

/-- `Game::drop_stone`: guards, the side-specific slide, then score bump
(`NB_POINT_STONE = 1`), last-move record, turn advance and win detection. -/
def dropStone (gs : GameState) (p : Player) (side : Side) (position : Nat) :
    Except GameError GameState := do
  canDropStone gs side position p
  let pidx := gs.playerIndex p
  let gs' ←
    match side with
    | .North => slideNorth p pidx position boardHeight 0 gs
    | .East => slideEast p pidx position boardWidth (boardWidth - 1) gs
    | .South => slideSouth p pidx position boardHeight (boardHeight - 1) gs
    | .West => slideWest p pidx position boardWidth 0 gs
  let gs' := gs'.increasePlayerScore p 1
  let gs' := { gs' with lastMove := some ⟨p, side, position⟩ }
  let gs' := { gs' with nextPlayer := gs'.nextPlayerAfter }
  pure (checkWinnerPlayer gs')

/-- Number of all-same-player 2×2 squares of a player over every scanned
top-left corner of the board (cumulative, overlapping squares counted
separately). -/
def countSquares (b : Board) (p : Nat) : Nat :=
  ((List.range (boardHeight - 1)).map fun r =>
    ((List.range (boardWidth - 1)).filter fun c => squareAt b r c = some p).length).sum

/-- The list of top-left corners of all-same-player 2×2 squares of a player. -/
def squareCorners (b : Board) (p : Nat) : List (Nat × Nat) :=
  (List.range (boardHeight - 1)).flatMap fun r =>
    (List.range (boardWidth - 1)).filterMap fun c =>
      if squareAt b r c = some p then some (r, c) else none

/-- Two 2×2 squares given by their top-left corners occupy disjoint sets of
cells iff the corners differ by at least 2 in a row or in a column. -/
def cornersDisjoint (a b : Nat × Nat) : Prop :=
  a.1 + 2 ≤ b.1 ∨ b.1 + 2 ≤ a.1 ∨ a.2 + 2 ≤ b.2 ∨ b.2 + 2 ≤ a.2

instance (a b : Nat × Nat) : Decidable (cornersDisjoint a b) := by
  unfold cornersDisjoint; infer_instance

/-- The player's stones form three pairwise disjoint all-same-player 2×2
squares somewhere on the board (the reading of the claim in which the three
squares are disjoint). -/
def threeDisjointSquares (b : Board) (p : Nat) : Prop :=
  ∃ s1 ∈ squareCorners b p, ∃ s2 ∈ squareCorners b p, ∃ s3 ∈ squareCorners b p,
    cornersDisjoint s1 s2 ∧ cornersDisjoint s1 s3 ∧ cornersDisjoint s2 s3

instance (b : Board) (p : Nat) : Decidable (threeDisjointSquares b p) := by
  unfold threeDisjointSquares; infer_instance

/-- A board holding stones of one player index at the listed coordinates. -/
def stonesBoard (p : Nat) (cells : List (Nat × Nat)) : Board :=
  fun r c => if (r, c) ∈ cells then .Stone p else .Empty

/-- A play-phase game state over a given board, with players 11 (index 0) and
22 (index 1), no winner, player 11 to move and no bombs left. -/
def mkPlayState (b : Board) : GameState :=
  { seed := 0
    board := b
    phase := .Play
    winner := none
    nextPlayer := 11
    players := (11, 22)
    bombs := ((11, 0), (22, 0))
    scores := ((11, 0), (22, 0))
    lastMove := none }

/-- The calibration stones of the spec's square-win example, as player
index 0. -/
def calibStones : List (Nat × Nat) :=
  [(1, 2), (1, 3), (2, 2), (2, 3), (4, 5), (4, 6), (5, 5), (5, 6),
   (6, 3), (6, 4), (7, 3), (7, 4)]

/-- The calibration board. -/
def calibBoard : Board := stonesBoard 0 calibStones

/-- The calibration game state. -/
def calibState : GameState := mkPlayState calibBoard

/-- A 2×4 run of player-0 stones: its three 2×2 squares overlap pairwise
except for the outermost pair, so no three of them are pairwise disjoint. -/
def overlapBoard : Board :=
  stonesBoard 0 [(1, 1), (1, 2), (1, 3), (1, 4), (2, 1), (2, 2), (2, 3), (2, 4)]

/-- Game state over the overlapping-squares board. -/
def overlapState : GameState := mkPlayState overlapBoard

/-- A board whose only non-empty cell is a `Block` at row 9, column 1. -/
def blockRow9Board : Board := fun r c => if r = 9 ∧ c = 1 then .Block else .Empty

/-- Game state for the north-drop calibration example. -/
def northState : GameState := mkPlayState blockRow9Board

/-- A board whose only non-empty cell is an opponent stone at row 0,
column 9 (the far column of a west drop). -/
def westStoneBoard : Board := fun r c => if r = 0 ∧ c = 9 then .Stone 1 else .Empty

/-- Game state for the west-drop far-stone counterexample. -/
def westState : GameState := mkPlayState westStoneBoard

/-- A finished play-phase game: player 11 already won. -/
def finishedPlayState : GameState := { mkPlayState emptyBoard with winner := some 11 }

/-- A finished bomb-phase game (the winner field set while the phase is still
`Bomb`; reachable through the public `Game::change_game_phase`). -/
def finishedBombState : GameState :=
  { mkPlayState emptyBoard with winner := some 11, phase := .Bomb }

/-- A state in which player 11's score sits at the `u8` maximum 255. -/
def score255State : GameState :=
  { mkPlayState emptyBoard with scores := ((11, 255), (22, 0)) }

/-- A throwaway game state used only as the default of `Option.getD`. -/
def defaultGameState : GameState := mkPlayState emptyBoard

/-- The game state produced by `new_game` for the default seed (players 11
and 22), with fuel 20 for the placement loop (10 placements suffice). -/
def defaultSeedState : GameState := (newGameFuel 20 11 22 none).getD defaultGameState

/-- Number of `Block` cells on the board grid. -/
def blockCellCount (b : Board) : Nat :=
  ((Finset.range boardHeight ×ˢ Finset.range boardWidth).filter
    fun rc => b rc.1 rc.2 = Cell.Block).card

/-- Squares of one player detected in one scanned row (all columns
`c < BOARD_WIDTH - 1`). -/
def rowSquareCount (b : Board) (r q : Nat) : Nat :=
  ((List.range (boardWidth - 1)).filter fun c => squareAt b r c = some q).length

/-- Cumulative squares of one player over a list of scanned rows. -/
def rowsSquareTotal (b : Board) (q : Nat) (rs : List Nat) : Nat :=
  (rs.map fun r => rowSquareCount b r q).sum

/-- The coordinate visited at step `i` of a stone dropped from the given side
at the given position: row `i` from the north, row `9 - i` from the south,
column `i` from the west, column `9 - i` from the east. -/
def pathCoord (side : Side) (position i : Nat) : Coords :=
  match side with
  | .North => ⟨i, position⟩
  | .South => ⟨boardHeight - 1 - i, position⟩
  | .West => ⟨position, i⟩
  | .East => ⟨position, boardWidth - 1 - i⟩

end D4G

namespace BM

/-- Mogwai lifecycle phase (`PhaseType`). -/
inductive PhaseType where
  | None : PhaseType
  | Bred : PhaseType
  | Hatched : PhaseType
  | Matured : PhaseType
  | Mastered : PhaseType
  | Exalted : PhaseType
deriving DecidableEq, Repr

/-- Mogwai rarity (`RarityType`). -/
inductive RarityType where
  | Common : RarityType
  | Uncommon : RarityType
  | Rare : RarityType
  | Epic : RarityType
  | Legendary : RarityType
  | Mythical : RarityType
deriving DecidableEq, Repr

/-- The numeric discriminant of a rarity (`RarityType as u8`). -/
def RarityType.toNat : RarityType → Nat
  | .Common => 0
  | .Uncommon => 1
  | .Rare => 2
  | .Epic => 3
  | .Legendary => 4
  | .Mythical => 5

/-- `From<u16> for RarityType`: the whole value is matched, and anything
above 5 falls back to `Common`.  `From<u8>` delegates to this after widening. -/
def RarityType.ofU16 (n : Nat) : RarityType :=
  match n with
  | 0 => .Common
  | 1 => .Uncommon
  | 2 => .Rare
  | 3 => .Epic
  | 4 => .Legendary
  | 5 => .Mythical
  | _ => .Common

/-- The packed rarity byte formed by `create_mogwai` and `breed_mogwais`:
`((max_rarity as u8) << 4) + rarity as u8`, a `u8` addition. -/
def packedRarityByte (maxRarity lowRarity : RarityType) : Nat :=
  ((maxRarity.toNat <<< 4) + lowRarity.toNat) % 256

/-- A mogwai (`Mogwai` struct); the generation is the numeric value of the
`MogwaiGeneration` enum, which ranges over `1..=16`, and the DNA is the pair
of 32-byte rows `[[u8; 32]; 2]`. -/
structure Mogwai where
  dna : List (List Nat)
  generation : Nat
  rarity : RarityType
  phase : PhaseType
deriving DecidableEq, Repr

/-- Achievement state (`AchievementState`). -/
inductive AchievementState where
  | InProgress : Nat → Nat → AchievementState
  | Completed : AchievementState
deriving DecidableEq, Repr

/-- `AchievementState::update`: `current + amount` is a plain (non-saturating)
`u16` addition, which wraps modulo 2^16 in a release build (and panics in a
debug build); crossing the target promotes to `Completed`. -/
def AchievementState.update : AchievementState → Nat → AchievementState
  | .InProgress current target, amount =>
    let newCurrent := (current + amount) % 65536
    if target ≤ newCurrent then .Completed else .InProgress newCurrent target
  | .Completed, _ => .Completed

/-- `AchievementState::increase_by`: same promotion rule but with
`u16::saturating_add`. -/
def AchievementState.increaseBy : AchievementState → Nat → AchievementState
  | .InProgress current target, amount =>
    let newCurrent := min (current + amount) 65535
    if target ≤ newCurrent then .Completed else .InProgress newCurrent target
  | .Completed, _ => .Completed

/-- The achievement table (`AchievementTable`). -/
structure AchievementTable where
  eggHatcher : AchievementState
  sacrificer : AchievementState
  morpheus : AchievementState
  legendBreeder : AchievementState
  promiscuous : AchievementState
deriving DecidableEq, Repr

/-- Asset variant (`BattleMogsVariant`). -/
inductive BattleMogsVariant where
  | Mogwai : Mogwai → BattleMogsVariant
  | AchievementTable : AchievementTable → BattleMogsVariant
deriving DecidableEq, Repr

/-- Asset envelope (`BattleMogsAsset`); ids are `u64`, block numbers `Nat`. -/
structure BattleMogsAsset where
  id : Nat
  genesis : Nat
  variant : BattleMogsVariant
deriving DecidableEq, Repr

/-- `BattleMogsAsset::is_mogwai`. -/
def BattleMogsAsset.isMogwai (a : BattleMogsAsset) : Bool :=
  match a.variant with
  | .Mogwai _ => true
  | _ => false

/-- `BattleMogsAsset::is_achievement`. -/
def BattleMogsAsset.isAchievement (a : BattleMogsAsset) : Bool :=
  match a.variant with
  | .AchievementTable _ => true
  | _ => false

/-- Transition errors (`TransitionError`): a `u8` code or an ownership
failure. -/
inductive TransitionError where
  | Transition : Nat → TransitionError
  | AssetOwnership : TransitionError
deriving DecidableEq, Repr

/-- Transition outputs (`TransitionOutput`). -/
inductive TransitionOutput where
  | Minted : BattleMogsAsset → TransitionOutput
  | Mutated : Nat → BattleMogsAsset → TransitionOutput
  | Consumed : Nat → TransitionOutput
deriving DecidableEq, Repr

/-- Breed type (`BreedType`). -/
inductive BreedType where
  | DomDom : BreedType
  | DomRez : BreedType
  | RezDom : BreedType
  | RezRez : BreedType
deriving DecidableEq, Repr

/-- `BreedType::calculate_breed_type`: block height modulo 80, split into four
twenty-block windows. -/
def calculateBreedType (blockNumber : Nat) : BreedType :=
  let m := blockNumber % 80
  if m ≤ 19 then .DomDom
  else if m ≤ 39 then .DomRez
  else if m ≤ 59 then .RezDom
  else .RezRez

/-- Largest `u64` value. -/
def u64Max : Nat := 18446744073709551615

/-- Big-endian interpretation of a byte list. -/
def beBytesToNat (bytes : List Nat) : Nat :=
  bytes.foldl (fun acc b => acc * 256 + b % 256) 0

/-- `H256::to_low_u64_be`: the big-endian interpretation of the LAST eight
bytes of the 32-byte hash. -/
def toLowU64Be (hash : List Nat) : Nat := beBytesToNat (hash.drop 24)

/-- `new_asset_id`: `random_hash(subject).to_low_u64_be().saturating_add(nonce)`
on `u64`. -/
def newAssetId (hash : List Nat) (nonce : Nat) : Nat :=
  min (toLowU64Be hash + nonce) u64Max

/-- Modelled from the spec: the claim's formula for a minted asset id, the
"64-bit big-endian prefix" of the random hash (its FIRST eight bytes)
saturating-added to the nonce.  It exists only to be compared with the id the
source code actually computes. -/
def specClaimAssetId (hash : List Nat) (nonce : Nat) : Nat :=
  min (beBytesToNat (hash.take 8) + nonce) u64Max

/-- `MILLIMOGS` constant. -/
def millimogs : Nat := 1000000000

/-- `Pricing::pairing`: price by the sum of the two parents' rarities. -/
def pairingPrice (r1 r2 : RarityType) : Nat :=
  match r1.toNat + r2.toNat with
  | 0 => 10 * millimogs
  | 1 => 100 * millimogs
  | 2 => 200 * millimogs
  | 3 => 300 * millimogs
  | 4 => 400 * millimogs
  | 5 => 500 * millimogs
  | 6 => 1000 * millimogs
  | 7 => 1500 * millimogs
  | 8 => 2000 * millimogs
  | _ => 10000 * millimogs

/-- `GameEventType::time_till(Hatch)`. -/
def timeTillHatch : Nat := 100

/-- The transition configuration (`BattleMogsTransitionConfig`). -/
structure BattleMogsTransitionConfig where
  maxMogwais : Nat
  targetEggHatcher : Nat
  targetSacrificer : Nat
  targetMorpheus : Nat
  targetLegendBreeder : Nat
  targetPromiscuous : Nat
deriving DecidableEq, Repr

/-- The host capability surface consumed by the transitions (`SageApi`):
asset store, ownership, per-asset escrow balance of the native fund (the
transitions under scrutiny are invoked without an explicit payment asset),
verifiable randomness keyed by subject, block height, and the config. -/
structure Host where
  assets : List (Nat × BattleMogsAsset)
  owner : Nat → Option Nat
  balance : Nat → Nat
  randomHash : String → List Nat
  blockNumber : Nat
  config : BattleMogsTransitionConfig

/-- `Sage::get_asset`. -/
def Host.getAsset (h : Host) (id : Nat) : Option BattleMogsAsset :=
  (h.assets.find? fun a => a.1 == id).map (·.2)

/-- `Sage::iter_assets_from`. -/
def Host.iterAssetsFrom (h : Host) (account : Nat) : List (Nat × BattleMogsAsset) :=
  h.assets.filter fun a => h.owner a.1 == some account

/-- `ensure_ownership` (maps a host failure to `AssetOwnership`). -/
def ensureOwnership (h : Host) (account id : Nat) : Except TransitionError Unit :=
  if h.owner id = some account then pure () else throw .AssetOwnership

/-- `BattleMogsAsset::as_mogwai`, by value. -/
def asMogwai (a : BattleMogsAsset) : Except TransitionError Mogwai :=
  match a.variant with
  | .Mogwai m => pure m
  | .AchievementTable _ => throw (.Transition 3)

/-- `get_owned_mogwai`: ownership, then fetch (code 0 when absent), then the
mogwai-kind check (code 3). -/
def getOwnedMogwai (h : Host) (account id : Nat) : Except TransitionError BattleMogsAsset := do
  ensureOwnership h account id
  match h.getAsset id with
  | none => throw (.Transition 0)
  | some a => if a.isMogwai then pure a else throw (.Transition 3)

/-- `get_mogwai`: fetch without ownership check. -/
def getMogwai (h : Host) (id : Nat) : Except TransitionError BattleMogsAsset :=
  match h.getAsset id with
  | none => throw (.Transition 0)
  | some a => if a.isMogwai then pure a else throw (.Transition 3)

/-- `ensure_not_max_mogwais`: counting the account's mogwais; the limit error
(code 1) fires only when the count exceeds `max_mogwais`. -/
def ensureNotMaxMogwais (h : Host) (account : Nat) : Except TransitionError Unit :=
  if (h.iterAssetsFrom account).countP (·.2.isMogwai) ≤ h.config.maxMogwais then pure ()
  else throw (.Transition 1)

/-- `ensure_has_not_achievement_table` (code 2). -/
def ensureHasNotAchievementTable (h : Host) (account : Nat) : Except TransitionError Unit :=
  if (h.iterAssetsFrom account).any (·.2.isAchievement) then throw (.Transition 2) else pure ()

/-- The `ensure!` macro of the source: succeed when the condition holds,
throw the given error otherwise. -/
def ensureBM (cond : Prop) [Decidable cond] (err : TransitionError) :
    Except TransitionError Unit :=
  if cond then pure () else throw err

/-- The type of `Breeding::sacrifice` from the missing `algorithm.rs`:
`(donor generation, donor rarity, donor dna, target generation, target rarity,
target dna) → u8` generation jump.  It is passed as a parameter so that the
embedded transition is settled for every possible jump value. -/
abbrev SacrificeJumpFn :=
  Nat → RarityType → List (List Nat) → Nat → RarityType → List (List Nat) → Nat

/-- `sacrifice_mogwai_into` (`transitions/sarifice_into.rs`): validations on
both mogwais, jump computation, conditional full escrow transfer from the
sacrificed asset to the target asset, and the output pair
`[Consumed(donor), Mutated(target, target_asset)]`.  The target asset is
emitted exactly as fetched: no field of it (in particular not the generation)
is modified before emission; the `Sacrificer` achievement update is a
commented-out TODO in the source. -/
def sacrificeMogwaiInto (h : Host) (sacrificeJump : SacrificeJumpFn)
    (owner sacrificedId intoId : Nat) :
    Except TransitionError (List TransitionOutput × Host) := do
  let sacrificedAsset ← getOwnedMogwai h owner sacrificedId
  let sacrificedMogwai ← asMogwai sacrificedAsset
  ensureBM (sacrificedMogwai.phase ≠ PhaseType.Bred) (.Transition 6)
  ensureBM (sacrificedMogwai.rarity ≠ RarityType.Common) (.Transition 8)
  let intoAsset ← getOwnedMogwai h owner intoId
  let intoMogwai ← asMogwai intoAsset
  ensureBM (intoMogwai.phase ≠ PhaseType.Bred) (.Transition 6)
  ensureBM (intoMogwai.rarity ≠ RarityType.Common) (.Transition 8)
  let genJump := sacrificeJump sacrificedMogwai.generation sacrificedMogwai.rarity
    sacrificedMogwai.dna intoMogwai.generation intoMogwai.rarity intoMogwai.dna
  let h' :=
    if 0 < genJump ∧ intoMogwai.generation + genJump ≤ 16 then
      let funds := h.balance sacrificedId
      let afterWithdraw : Nat → Nat := fun id =>
        if id = sacrificedId then h.balance sacrificedId - funds else h.balance id
      { h with balance := fun id =>
          if id = intoId then afterWithdraw intoId + funds else afterWithdraw id }
    else h
  pure ([.Consumed sacrificedId, .Mutated intoId intoAsset], h')

/-- `hatch_mogwai` (`transitions/hatch.rs`): ownership, hatch-timer check
(which reuses error code 100), bred-phase check, then DNA re-segmentation and
rarity bake keyed by the `mogwai_hatch` hash.  `Breeding::segmenting` and
`Breeding::bake` live in the missing `algorithm.rs` and are passed as
parameters.  The single output is the mutated mogwai; the `EggHatcher`
achievement update is a commented-out TODO in the source. -/
def hatchMogwai (h : Host)
    (segmenting : List (List Nat) → List Nat → List (List Nat))
    (bake : RarityType → List Nat → RarityType)
    (owner mogwaiId : Nat) : Except TransitionError (List TransitionOutput) := do
  let asset ← getOwnedMogwai h owner mogwaiId
  ensureBM (timeTillHatch ≤ h.blockNumber - asset.genesis) (.Transition 100)
  let mogwai ← asMogwai asset
  ensureBM (mogwai.phase = PhaseType.Bred) (.Transition 7)
  let hash := h.randomHash "mogwai_hatch"
  let newDna := segmenting mogwai.dna hash
  let newRarity := bake mogwai.rarity hash
  let newMogwai : Mogwai := { mogwai with phase := .Hatched, rarity := newRarity, dna := newDna }
  let newAsset : BattleMogsAsset := { asset with variant := .Mogwai newMogwai }
  pure [.Mutated mogwaiId newAsset]

/-- The type of `Generation::next_gen` from the missing `algorithm.rs`:
`(gen_1, rarity_1, gen_2, rarity_2, hash) → (rarity, next_gen, max_rarity)`,
passed as a parameter. -/
abbrev NextGenFn :=
  Nat → RarityType → Nat → RarityType → List Nat → RarityType × Nat × RarityType

/-- The type of `Breeding::pairing` from the missing `algorithm.rs`:
`(breed_type, dna_row_a, dna_row_b) → [[u8; 32]; 2]`, passed as a parameter. -/
abbrev PairingFn := BreedType → List Nat → List Nat → List (List Nat)

/-- `create_mogwai` (`transitions/create.rs`): mogwai-count limit, id from
`random_hash("mogwai_id").to_low_u64_be()` with NO nonce, two further hashes,
`Generation::next_gen` from two first-generation common parents, the packed
rarity byte re-interpreted through `RarityType::from`, breed type from the
block height, DNA from `Breeding::pairing`, and a single `Minted` output in
phase `Bred`. -/
def createMogwai (h : Host) (nextGen : NextGenFn) (pairing : PairingFn)
    (owner : Nat) : Except TransitionError (List TransitionOutput) := do
  ensureNotMaxMogwais h owner
  let mogwaiId := toLowU64Be (h.randomHash "mogwai_id")
  let hash1 := h.randomHash "create_mogwai"
  let hash2 := h.randomHash "extend_mogwai"
  let rgm := nextGen 1 .Common 1 .Common hash1
  let rarity := RarityType.ofU16 (packedRarityByte rgm.2.2 rgm.1)
  let breedType := calculateBreedType h.blockNumber
  let finalDna := pairing breedType hash1 hash2
  pure [.Minted
    ({ id := mogwaiId
       genesis := h.blockNumber
       variant := .Mogwai
         ({ dna := finalDna, generation := rgm.2.1, rarity := rarity, phase := .Bred }) })]

/-- `breed_mogwais` (`transitions/breed.rs`): distinct ids, count limit, an
owned non-bred first mogwai, a (possibly foreign) non-bred second mogwai, the
id nonce `(id_1 saturating_add id_2) % 31`, the pairing price deposited into
the second mogwai's escrow, and a single `Minted` child in phase `Bred`
carrying the low-nibble rarity directly.  The `LegendBreeder`/`Promiscuous`
achievement branches are commented-out TODO no-ops in the source. -/
def breedMogwais (h : Host) (nextGen : NextGenFn) (pairing : PairingFn)
    (owner mogwaiId1 mogwaiId2 : Nat) :
    Except TransitionError (List TransitionOutput × Host) := do
  ensureBM (mogwaiId1 ≠ mogwaiId2) (.Transition 5)
  ensureNotMaxMogwais h owner
  let asset1 ← getOwnedMogwai h owner mogwaiId1
  let mogwai1 ← asMogwai asset1
  ensureBM (mogwai1.phase ≠ PhaseType.Bred) (.Transition 6)
  let asset2 ← getMogwai h mogwaiId2
  let mogwai2 ← asMogwai asset2
  ensureBM (mogwai2.phase ≠ PhaseType.Bred) (.Transition 6)
  let mogwaiNonce := min (mogwaiId1 + mogwaiId2) u64Max % 31
  let mogwaiId := newAssetId (h.randomHash "breed_mogwai") mogwaiNonce
  let nextGenHash := h.randomHash "breed_next_gen"
  let rgm := nextGen mogwai1.generation mogwai1.rarity mogwai2.generation mogwai2.rarity
    nextGenHash
  let breedType := calculateBreedType h.blockNumber
  let price := pairingPrice mogwai1.rarity mogwai2.rarity
  let h' := { h with balance := fun id =>
    if id = mogwaiId2 then h.balance mogwaiId2 + price else h.balance id }
  let finalDna := pairing breedType (mogwai1.dna.headD []) (mogwai2.dna.headD [])
  pure ([.Minted
    ({ id := mogwaiId
       genesis := h.blockNumber
       variant := .Mogwai
         ({ dna := finalDna, generation := rgm.2.1, rarity := rgm.1, phase := .Bred }) })], h')

/-- `register_player` (`transitions/register.rs`): at most one achievement
table per player; all five achievements start `InProgress { 0, target }` from
the config; the table id is `new_asset_id("mogwai_id", block_number)`. -/
def registerPlayer (h : Host) (player : Nat) : Except TransitionError (List TransitionOutput) := do
  ensureHasNotAchievementTable h player
  let cfg := h.config
  let table : AchievementTable :=
    { eggHatcher := .InProgress 0 cfg.targetEggHatcher
      sacrificer := .InProgress 0 cfg.targetSacrificer
      morpheus := .InProgress 0 cfg.targetMorpheus
      legendBreeder := .InProgress 0 cfg.targetLegendBreeder
      promiscuous := .InProgress 0 cfg.targetPromiscuous }
  let tableId := newAssetId (h.randomHash "mogwai_id") h.blockNumber
  pure [.Minted ({ id := tableId, genesis := h.blockNumber, variant := .AchievementTable table })]

/-- The ids of the assets minted in an output list. -/
def mintedIds (outs : List TransitionOutput) : List Nat :=
  outs.filterMap fun o =>
    match o with
    | .Minted a => some a.id
    | _ => none

/-- The default transition configuration (`Default for
BattleMogsTransitionConfig`). -/
def defaultConfig : BattleMogsTransitionConfig :=
  { maxMogwais := 10
    targetEggHatcher := 100
    targetSacrificer := 100
    targetMorpheus := 100
    targetLegendBreeder := 100
    targetPromiscuous := 100 }

/-- A constant DNA row for concrete test assets. -/
def dnaRow (x : Nat) : List Nat := List.replicate 32 x

/-- A 32-byte hash whose last byte is 1 and all other bytes 0, so its
`to_low_u64_be` value is 1 and its big-endian 8-byte head is 0. -/
def hashLow1 : List Nat := List.replicate 31 0 ++ [1]

/-- Concrete donor mogwai for the `SacrificeInto` scenario. -/
def donorMogwai : Mogwai :=
  { dna := [dnaRow 1, dnaRow 2], generation := 3, rarity := .Rare, phase := .Hatched }

/-- Concrete target mogwai for the `SacrificeInto` scenario; it sits at
generation 5, so a jump of 2 keeps it within the bound 16. -/
def targetMogwai : Mogwai :=
  { dna := [dnaRow 3, dnaRow 4], generation := 5, rarity := .Epic, phase := .Matured }

/-- Donor asset with id 1. -/
def donorAsset : BattleMogsAsset := ⟨1, 0, .Mogwai donorMogwai⟩

/-- Target asset with id 2. -/
def targetAsset : BattleMogsAsset := ⟨2, 0, .Mogwai targetMogwai⟩

/-- Host for the `SacrificeInto` scenario: account 77 owns both mogwais, the
donor escrow holds 50, the target escrow holds 7. -/
def sacrificeHost : Host :=
  { assets := [(1, donorAsset), (2, targetAsset)]
    owner := fun id => if id = 1 ∨ id = 2 then some 77 else none
    balance := fun id => if id = 1 then 50 else if id = 2 then 7 else 0
    randomHash := fun _ => hashLow1
    blockNumber := 10
    config := defaultConfig }

/-- Concrete bred mogwai for the `Hatch` scenario. -/
def bredMogwai : Mogwai :=
  { dna := [dnaRow 1, dnaRow 2], generation := 1, rarity := .Common, phase := .Bred }

/-- Bred asset with id 1, created at height 50. -/
def bredAsset : BattleMogsAsset := ⟨1, 50, .Mogwai bredMogwai⟩

/-- A fresh achievement table owned by the hatching player. -/
def playerTable : AchievementTable :=
  { eggHatcher := .InProgress 0 100
    sacrificer := .InProgress 0 100
    morpheus := .InProgress 0 100
    legendBreeder := .InProgress 0 100
    promiscuous := .InProgress 0 100 }

/-- The achievement-table asset with id 9. -/
def tableAsset : BattleMogsAsset := ⟨9, 0, .AchievementTable playerTable⟩

/-- Host for the `Hatch` scenario at height 200, far past the 100-block hatch
timer of the asset born at height 50; the hatching account owns the mogwai
and its achievement table. -/
def hatchHost : Host :=
  { assets := [(1, bredAsset), (9, tableAsset)]
    owner := fun id => if id = 1 ∨ id = 9 then some 77 else none
    balance := fun _ => 0
    randomHash := fun _ => hashLow1
    blockNumber := 200
    config := defaultConfig }

/-- Host for the `CreateMogwai` scenario: account 77 owns nothing, the
block height is 5 and every hash draw returns `hashLow1`. -/
def createHost : Host :=
  { assets := []
    owner := fun _ => none
    balance := fun _ => 0
    randomHash := fun _ => hashLow1
    blockNumber := 5
    config := defaultConfig }

/-- A concrete `Generation::next_gen` stand-in returning
`(rarity = Rare, next_gen = 1, max_rarity = Uncommon)`. -/
def nextGenConst : NextGenFn := fun _ _ _ _ _ => (.Rare, 1, .Uncommon)

/-- A concrete `Breeding::pairing` stand-in pairing the two rows verbatim. -/
def pairingConst : PairingFn := fun _ a b => [a, b]

end BM

section Theorems

open D4G BM

/-- Splitting a successful `Except` bind into its two successful stages. -/
theorem except_bind_ok {ε α β : Type} {e : Except ε α} {f : α → Except ε β} {b : β}
    (h : e >>= f = Except.ok b) : ∃ a, e = Except.ok a ∧ f a = Except.ok b := by
  cases e with
  | error err => simp [Bind.bind, Except.bind] at h
  | ok a => exact ⟨a, rfl, by simpa [Bind.bind, Except.bind] using h⟩

/-- C1: on a successful `SacrificeInto` with jump 2 from generation 5 (so
`jump > 0` and `target_gen + jump = 7 ≤ 16`), the donor escrow is drained to
zero and the target escrow gains the full amount, but the emitted
`Mutated(target)` asset is the target asset exactly as fetched: its
generation is still 5, not 5 + 2 as the claim requires. -/
theorem sacrificeInto_drains_escrow_but_keeps_generation :
    (sacrificeMogwaiInto sacrificeHost (fun _ _ _ _ _ _ => 2) 77 1 2).toOption.map Prod.fst =
      some [.Consumed 1, .Mutated 2 targetAsset] ∧
    (sacrificeMogwaiInto sacrificeHost (fun _ _ _ _ _ _ => 2) 77 1 2).toOption.map
      (fun r => (r.2.balance 1, r.2.balance 2)) = some (0, 57) ∧
    targetMogwai.generation = 5 ∧ targetMogwai.generation + 2 = 7 := by
  refine ⟨rfl, rfl, rfl, rfl⟩

/-- C5: a successful `Hatch` emits exactly one output, the mutated mogwai in
phase `Hatched`; no `Mutated(table_id, table)` output with an advanced
`EggHatcher` achievement appears, even though the hatching account owns the
achievement table with id 9 (the update is a commented-out TODO in the
source). -/
theorem hatch_emits_no_achievement_update :
    hatchMogwai hatchHost (fun d _ => d) (fun r _ => r) 77 1 =
      .ok [.Mutated 1 ⟨1, 50, .Mogwai { bredMogwai with phase := .Hatched }⟩] ∧
    (hatchHost.getAsset 9 = some tableAsset ∧ hatchHost.owner 9 = some 77) := by
  exact ⟨rfl, rfl, rfl⟩

/-- C9: `AchievementState::update` adds with a plain wrapping `u16` addition:
from `InProgress { current := 65500, target := 65535 }` an update by 100
wraps to `InProgress { current := 64, .. }`, decreasing `current` instead of
saturating into `Completed` — as its sibling `increase_by`, which does use
`saturating_add`, shows; and `GameState::increase_player_score` wraps the
`u8` score from 255 to 0. -/
theorem achievement_update_and_score_wrap :
    AchievementState.update (.InProgress 65500 65535) 100 = .InProgress 64 65535 ∧
    AchievementState.increaseBy (.InProgress 65500 65535) 100 = .Completed ∧
    (score255State.increasePlayerScore 11 1).scores.1.2 = 0 := by
  refine ⟨rfl, rfl, rfl⟩

/-- C6 counterexample: for `max_rarity = Uncommon` and low nibble `Rare` the
packed byte is 18, and `RarityType::from` yields `Common`, not the `Rare`
named by the low nibble, refuting the claim's "for all values of
max_rarity". -/
theorem packed_rarity_counterexample :
    RarityType.ofU16 (packedRarityByte RarityType.Uncommon RarityType.Rare) =
      RarityType.Common ∧
    packedRarityByte RarityType.Uncommon RarityType.Rare = 18 ∧
    RarityType.Common ≠ RarityType.Rare := by
  refine ⟨rfl, rfl, by decide⟩


/-- On success, `create_mogwai` emits exactly one `Minted` asset, fully
determined by the host and the two algorithm parameters. -/
theorem createMogwai_ok_shape (h : Host) (nG : NextGenFn) (pF : PairingFn)
    (owner : Nat) (outs : List TransitionOutput)
    (hok : createMogwai h nG pF owner = .ok outs) :
    outs = [.Minted
      ({ id := toLowU64Be (h.randomHash "mogwai_id")
         genesis := h.blockNumber
         variant := .Mogwai
           ({ dna := pF (calculateBreedType h.blockNumber) (h.randomHash "create_mogwai")
                (h.randomHash "extend_mogwai")
              generation := (nG 1 .Common 1 .Common (h.randomHash "create_mogwai")).2.1
              rarity := RarityType.ofU16 (packedRarityByte
                (nG 1 .Common 1 .Common (h.randomHash "create_mogwai")).2.2
                (nG 1 .Common 1 .Common (h.randomHash "create_mogwai")).1)
              phase := .Bred }) })] := by
  unfold createMogwai at hok
  obtain ⟨u, hu, hok⟩ := except_bind_ok hok
  simp only [Pure.pure, Except.pure, Except.ok.injEq] at hok
  exact hok.symm

/-- On success, `register_player` emits exactly one `Minted` achievement
table whose id is `new_asset_id("mogwai_id", block_number)`. -/
theorem registerPlayer_ok_shape (h : Host) (player : Nat) (outs : List TransitionOutput)
    (hok : registerPlayer h player = .ok outs) :
    outs = [.Minted
      ({ id := newAssetId (h.randomHash "mogwai_id") h.blockNumber
         genesis := h.blockNumber
         variant := .AchievementTable
           ({ eggHatcher := .InProgress 0 h.config.targetEggHatcher
              sacrificer := .InProgress 0 h.config.targetSacrificer
              morpheus := .InProgress 0 h.config.targetMorpheus
              legendBreeder := .InProgress 0 h.config.targetLegendBreeder
              promiscuous := .InProgress 0 h.config.targetPromiscuous }) })] := by
  unfold registerPlayer at hok
  obtain ⟨u, hu, hok⟩ := except_bind_ok hok
  simp only [Pure.pure, Except.pure, Except.ok.injEq] at hok
  exact hok.symm

/-- On success, `breed_mogwais` emits exactly one `Minted` child whose id is
`new_asset_id("breed_mogwai", (id_1 saturating_add id_2) % 31)`. -/
theorem breedMogwais_ok_minted_id (h : Host) (nG : NextGenFn) (pF : PairingFn)
    (owner i1 i2 : Nat) (outs : List TransitionOutput) (h2 : Host)
    (hok : breedMogwais h nG pF owner i1 i2 = .ok (outs, h2)) :
    mintedIds outs = [newAssetId (h.randomHash "breed_mogwai") (min (i1 + i2) u64Max % 31)] := by
  unfold breedMogwais at hok
  obtain ⟨u0, hu0, hok⟩ := except_bind_ok hok
  obtain ⟨u1, hu1, hok⟩ := except_bind_ok hok
  obtain ⟨asset1, hasset1, hok⟩ := except_bind_ok hok
  obtain ⟨mogwai1, hmogwai1, hok⟩ := except_bind_ok hok
  obtain ⟨u2, hu2, hok⟩ := except_bind_ok hok
  obtain ⟨asset2, hasset2, hok⟩ := except_bind_ok hok
  obtain ⟨mogwai2, hmogwai2, hok⟩ := except_bind_ok hok
  obtain ⟨u3, hu3, hok⟩ := except_bind_ok hok
  simp only [Pure.pure, Except.pure, Except.ok.injEq, Prod.mk.injEq] at hok
  rw [← hok.1]
  rfl

/-- C6 (amended): the packed byte `(max_rarity << 4) | rarity_low_nibble` is
re-interpreted through `RarityType::from`, which matches the WHOLE value, so
the stored rarity is the low-nibble rarity only when `max_rarity` is `Common`
(packed value ≤ 5) and falls back to `Common` for every non-`Common`
`max_rarity` (packed value ≥ 16); accordingly the rarity stored by
`create_mogwai` is the low nibble of `next_gen`'s answer only when the
returned max rarity is `Common`, and `Common` otherwise. -/
theorem packed_rarity_low_nibble_only_when_common :
    (∀ maxR lowR : RarityType,
      RarityType.ofU16 (packedRarityByte maxR lowR) =
        if maxR = RarityType.Common then lowR else RarityType.Common) ∧
    (∀ (h : Host) (nG : NextGenFn) (pF : PairingFn) (owner : Nat)
        (outs : List TransitionOutput),
      createMogwai h nG pF owner = .ok outs →
      ∃ a m, outs = [.Minted a] ∧ a.variant = .Mogwai m ∧
        m.rarity =
          (if (nG 1 .Common 1 .Common (h.randomHash "create_mogwai")).2.2 = RarityType.Common
           then (nG 1 .Common 1 .Common (h.randomHash "create_mogwai")).1
           else RarityType.Common)) := by
  constructor
  · intro maxR lowR
    cases maxR <;> cases lowR <;> decide
  · intro h nG pF owner outs hok
    have hshape := createMogwai_ok_shape h nG pF owner outs hok
    refine ⟨_, _, hshape, rfl, ?_⟩
    have hpack : ∀ maxR lowR : RarityType,
        RarityType.ofU16 (packedRarityByte maxR lowR) =
          if maxR = RarityType.Common then lowR else RarityType.Common := by
      intro maxR lowR
      cases maxR <;> cases lowR <;> decide
    exact hpack _ _

/-- C6 witness: the amended statement applied to the concrete creation host,
whose `next_gen` stand-in returns max rarity `Uncommon` and low nibble
`Rare`, so the stored rarity is `Common`. -/
theorem packed_rarity_low_nibble_only_when_common_witness :
    ∃ a m, (createMogwai createHost nextGenConst pairingConst 77).toOption.getD [] =
        [TransitionOutput.Minted a] ∧
      a.variant = BattleMogsVariant.Mogwai m ∧
      m.rarity =
        (if (nextGenConst 1 .Common 1 .Common (createHost.randomHash "create_mogwai")).2.2 =
            RarityType.Common
         then (nextGenConst 1 .Common 1 .Common (createHost.randomHash "create_mogwai")).1
         else RarityType.Common) :=
  packed_rarity_low_nibble_only_when_common.2 createHost nextGenConst pairingConst 77
    ((createMogwai createHost nextGenConst pairingConst 77).toOption.getD []) rfl

/-- C7 (amended): every minted asset id is
`random_hash(subject).to_low_u64_be()` — the big-endian value of the LAST
eight hash bytes, not of an eight-byte head — saturating-added to a nonce
that is `(id_1 + id_2) % 31` for breeding and the block height for
`register_player`, while `create_mogwai` adds NO nonce at all. -/
theorem minted_asset_id_formulas :
    (∀ (h : Host) (nG : NextGenFn) (pF : PairingFn) (owner : Nat)
        (outs : List TransitionOutput),
      createMogwai h nG pF owner = .ok outs →
      mintedIds outs = [toLowU64Be (h.randomHash "mogwai_id")]) ∧
    (∀ (h : Host) (nG : NextGenFn) (pF : PairingFn) (owner i1 i2 : Nat)
        (outs : List TransitionOutput) (h2 : Host),
      breedMogwais h nG pF owner i1 i2 = .ok (outs, h2) →
      mintedIds outs = [newAssetId (h.randomHash "breed_mogwai") (min (i1 + i2) u64Max % 31)]) ∧
    (∀ (h : Host) (player : Nat) (outs : List TransitionOutput),
      registerPlayer h player = .ok outs →
      mintedIds outs = [newAssetId (h.randomHash "mogwai_id") h.blockNumber]) := by
  refine ⟨?_, ?_, ?_⟩
  · intro h nG pF owner outs hok
    rw [createMogwai_ok_shape h nG pF owner outs hok]
    rfl
  · intro h nG pF owner i1 i2 outs h2 hok
    exact breedMogwais_ok_minted_id h nG pF owner i1 i2 outs h2 hok
  · intro h player outs hok
    rw [registerPlayer_ok_shape h player outs hok]
    rfl

/-- C7 witness: the creation branch of the amended statement at the concrete
creation host: the minted id is 1, the low-`u64` of the constant hash. -/
theorem minted_asset_id_formulas_witness :
    mintedIds ((createMogwai createHost nextGenConst pairingConst 77).toOption.getD []) =
      [toLowU64Be (createHost.randomHash "mogwai_id")] :=
  minted_asset_id_formulas.1 createHost nextGenConst pairingConst 77
    ((createMogwai createHost nextGenConst pairingConst 77).toOption.getD []) rfl

/-- C7 counterexample: at the concrete creation host (hash with last byte 1,
height 5) the minted id is 1, while the claim's formula — 64-bit big-endian
head of the hash plus the block-height nonce — gives 5. -/
theorem create_id_ignores_height_nonce :
    (createMogwai createHost nextGenConst pairingConst 77).toOption.map mintedIds =
      some [1] ∧
    specClaimAssetId (createHost.randomHash "mogwai_id") createHost.blockNumber = 5 ∧
    (1 : Nat) ≠ 5 := by
  refine ⟨rfl, rfl, by decide⟩


/-- C8 (amended): in every state with a winner, both transitions are refused
and return an error without producing a new state — but the phase guard runs
FIRST, so the error is `GameAlreadyFinished` only when the phase matches the
transition (`Bomb` for `drop_bomb`, `Play` for `drop_stone`); in the opposite
phase the phase error is returned instead. -/
theorem finished_game_transitions_error :
    (∀ (gs : GameState) (pos : Coords) (p w : Player), gs.winner = some w →
      dropBomb gs pos p =
        .error (if gs.phase = GamePhase.Bomb then GameError.GameAlreadyFinished
                else GameError.DroppedBombOutsideBombPhase)) ∧
    (∀ (gs : GameState) (p : Player) (side : Side) (position : Nat) (w : Player),
      gs.winner = some w →
      dropStone gs p side position =
        .error (if gs.phase = GamePhase.Play then GameError.GameAlreadyFinished
                else GameError.DroppedStoneOutsidePlayPhase)) := by
  constructor
  · intro gs pos p w hw
    have hc : canDropBomb gs pos p =
        .error (if gs.phase = GamePhase.Bomb then GameError.GameAlreadyFinished
                else GameError.DroppedBombOutsideBombPhase) := by
      unfold canDropBomb
      cases hph : gs.phase <;> simp [hph, hw, throw, throwThe, MonadExceptOf.throw]
    unfold dropBomb
    rw [hc]
    rfl
  · intro gs p side position w hw
    have hc : canDropStone gs side position p =
        .error (if gs.phase = GamePhase.Play then GameError.GameAlreadyFinished
                else GameError.DroppedStoneOutsidePlayPhase) := by
      unfold canDropStone
      cases hph : gs.phase <;> simp [hph, hw, throw, throwThe, MonadExceptOf.throw]
    unfold dropStone
    rw [hc]
    rfl

/-- C8 witness: the amended statement applied to two concrete finished
states: a finished bomb-phase game refuses a bomb with
`GameAlreadyFinished`, and a finished play-phase game refuses a stone with
`GameAlreadyFinished`. -/
theorem finished_game_transitions_error_witness :
    dropBomb finishedBombState ⟨0, 0⟩ 11 = .error GameError.GameAlreadyFinished ∧
    dropStone finishedPlayState 11 Side.North 0 = .error GameError.GameAlreadyFinished := by
  constructor
  · have h := finished_game_transitions_error.1 finishedBombState ⟨0, 0⟩ 11 11 rfl
    simpa using h
  · have h := finished_game_transitions_error.2 finishedPlayState 11 Side.North 0 11 rfl
    simpa using h

/-- C8 counterexample: in the finished PLAY-phase state, `drop_bomb` returns
`DroppedBombOutsideBombPhase`, not the `GameAlreadyFinished` the claim
promises for every transition. -/
theorem finished_game_drop_bomb_phase_error :
    dropBomb finishedPlayState ⟨0, 0⟩ 11 = .error GameError.DroppedBombOutsideBombPhase ∧
    GameError.DroppedBombOutsideBombPhase ≠ GameError.GameAlreadyFinished := by
  exact ⟨rfl, by decide⟩


/-- A coordinate drawn by `Coordinates::random` has row and column at
most 8, both being residues modulo `dimension - 1 = 9`. -/
theorem coordRandom_bounds (seed : Nat) :
    (coordRandom seed).1.row ≤ 8 ∧ (coordRandom seed).1.col ≤ 8 := by
  unfold coordRandom boardWidth boardHeight
  constructor
  · exact Nat.lt_succ_iff.mp (Nat.mod_lt _ (by norm_num))
  · exact Nat.lt_succ_iff.mp (Nat.mod_lt _ (by norm_num))

/-- Coordinates are equal iff their fields are. -/
theorem Coords_eq_iff (x y : D4G.Coords) : x = y ↔ x.row = y.row ∧ x.col = y.col := by
  cases x; cases y; simp

/-- Every block placed by the placement loop lies within rows and columns
0..8, provided all pre-existing blocks do. -/
theorem placeBlocks_bounds :
    ∀ (fuel : Nat) (board : Board) (blocks : List Coords) (remaining seed : Nat)
      (b' : Board) (s' : Nat),
      placeBlocks fuel board blocks remaining seed = some (b', s') →
      (∀ r c, board r c = Cell.Block → r ≤ 8 ∧ c ≤ 8) →
      ∀ r c, b' r c = Cell.Block → r ≤ 8 ∧ c ≤ 8 := by
  intro fuel
  induction fuel with
  | zero =>
    intro board blocks remaining seed b' s' h _
    simp [placeBlocks] at h
  | succ n ih =>
    intro board blocks remaining seed b' s' h hinv
    simp only [placeBlocks] at h
    split at h
    · obtain ⟨hb, _⟩ := Prod.mk.injEq .. ▸ (Option.some.injEq .. ▸ h)
      exact hb ▸ hinv
    · split at h
      · exact ih _ _ _ _ _ _ h hinv
      · refine ih _ _ _ _ _ _ h ?_
        intro r c hrc
        unfold updateCell at hrc
        split at hrc
        · rename_i heq
          obtain ⟨h1, h2⟩ := heq
          subst h1; subst h2
          exact coordRandom_bounds seed
        · exact hinv r c hrc

/-- C10: every `Block` cell of a board produced by `new_game` (for any seed
for which the placement loop finishes) lies at row ≤ 8 and column ≤ 8: block
coordinates are sampled modulo `dimension - 1 = 9`, so the last row and the
last column never contain a block. -/
theorem newGame_blocks_within_bounds (fuel p1 p2 : Nat) (seed : Option Nat) (gs : GameState)
    (h : newGameFuel fuel p1 p2 seed = some gs) (r c : Nat)
    (hb : gs.board r c = Cell.Block) : r ≤ 8 ∧ c ≤ 8 := by
  unfold newGameFuel at h
  cases hp : placeBlocks fuel emptyBoard [] numOfBlocks (seed.getD initialSeed) with
  | none => rw [hp] at h; simp at h
  | some bs =>
    obtain ⟨b0, s0⟩ := bs
    rw [hp] at h
    simp only [Option.map_some'] at h
    have h2 := Option.some.inj h
    subst h2
    refine placeBlocks_bounds fuel emptyBoard [] numOfBlocks (seed.getD initialSeed) b0 s0 hp
      ?_ r c hb
    intro r c hrc
    simp [emptyBoard] at hrc

/-- C10 witness: the default-seed board has a block at (5, 5), and the
theorem instantiates there. -/
theorem newGame_blocks_within_bounds_witness : 5 ≤ 8 ∧ 5 ≤ 8 :=
  newGame_blocks_within_bounds 20 11 22 none defaultSeedState rfl 5 5 (by rfl)

/-- Updating a fresh in-range cell to `Block` increments the block count. -/
theorem blockCellCount_update (b : Board) (pos : Coords) (hr : pos.row < boardHeight)
    (hc : pos.col < boardWidth) (h : b pos.row pos.col ≠ Cell.Block) :
    blockCellCount (updateCell b pos .Block) = blockCellCount b + 1 := by
  unfold blockCellCount
  have hset : ((Finset.range boardHeight ×ˢ Finset.range boardWidth).filter
      (fun rc => updateCell b pos .Block rc.1 rc.2 = Cell.Block)) =
    insert (pos.row, pos.col)
      ((Finset.range boardHeight ×ˢ Finset.range boardWidth).filter
        (fun rc => b rc.1 rc.2 = Cell.Block)) := by
    ext rc
    by_cases hrc : rc.1 = pos.row ∧ rc.2 = pos.col
    · obtain ⟨h1, h2⟩ := hrc
      simp [Finset.mem_filter, Finset.mem_insert, Finset.mem_product, Finset.mem_range,
        updateCell, h1, h2, Prod.ext_iff, hr, hc]
    · have hne : ¬(rc = (pos.row, pos.col)) := by
        intro hcontra
        exact hrc (by rw [hcontra]; exact ⟨rfl, rfl⟩)
      rw [Finset.mem_insert, Finset.mem_filter, Finset.mem_filter]
      have hcell : updateCell b pos Cell.Block rc.1 rc.2 = b rc.1 rc.2 := by
        unfold updateCell
        rw [if_neg hrc]
      rw [hcell]
      simp [hne]
  rw [hset, Finset.card_insert_of_not_mem]
  simp [Finset.mem_filter, h]

/-- The placement loop, when it finishes, leaves exactly `NUM_OF_BLOCKS`
blocks on the board: the board's blocks mirror the `blocks` list, each
placement is at a coordinate not yet in the list, and the count plus the
remaining budget is invariant. -/
theorem placeBlocks_count :
    ∀ (fuel : Nat) (board : Board) (blocks : List Coords) (remaining seed : Nat)
      (b' : Board) (s' : Nat),
      placeBlocks fuel board blocks remaining seed = some (b', s') →
      (∀ x : Coords, board x.row x.col = Cell.Block ↔ x ∈ blocks) →
      blockCellCount board + remaining = numOfBlocks →
      blockCellCount b' = numOfBlocks := by
  intro fuel
  induction fuel with
  | zero =>
    intro board blocks remaining seed b' s' h _ _
    simp [placeBlocks] at h
  | succ n ih =>
    intro board blocks remaining seed b' s' h hiff hcount
    simp only [placeBlocks] at h
    split at h
    · rename_i hrem
      obtain ⟨hb, _⟩ := Prod.mk.injEq .. ▸ (Option.some.injEq .. ▸ h)
      rw [← hb, ← hcount, hrem]
      omega
    · rename_i hrem
      split at h
      · exact ih _ _ _ _ _ _ h hiff hcount
      · rename_i hnotmem
        obtain ⟨hbr, hbc⟩ := coordRandom_bounds seed
        have hfresh : board (coordRandom seed).1.row (coordRandom seed).1.col ≠ Cell.Block := by
          intro hcontra
          exact hnotmem ((hiff (coordRandom seed).1).mp hcontra)
        have hstep : blockCellCount (updateCell board (coordRandom seed).1 .Block) =
            blockCellCount board + 1 :=
          blockCellCount_update board (coordRandom seed).1
            (by unfold boardHeight; omega) (by unfold boardWidth; omega) hfresh
        refine ih _ _ _ _ _ _ h ?_ ?_
        · intro x
          unfold updateCell
          by_cases hx : x.row = (coordRandom seed).1.row ∧ x.col = (coordRandom seed).1.col
          · have hxeq : x = (coordRandom seed).1 := (Coords_eq_iff x (coordRandom seed).1).mpr hx
            simp [hx, hxeq]
          · have hxne : x ≠ (coordRandom seed).1 :=
              fun hcontra => hx ((Coords_eq_iff x (coordRandom seed).1).mp hcontra)
            simp only [hx, if_false]
            rw [hiff x]
            simp [hxne]
        · rw [hstep]
          omega

/-- C3 (amended): whenever the block-placement loop of `new_game` finishes
(as it does for the default seed 123456), the resulting board carries exactly
`NUM_OF_BLOCKS = 10` `Block` cells — necessarily at 10 distinct coordinates,
being distinct cells; termination, however, does not hold for every seed. -/
theorem newGame_places_ten_distinct_blocks :
    (∀ (fuel p1 p2 : Nat) (seed : Option Nat) (gs : GameState),
      newGameFuel fuel p1 p2 seed = some gs → blockCellCount gs.board = numOfBlocks) ∧
    (newGameFuel 20 11 22 none).isSome = true := by
  constructor
  · intro fuel p1 p2 seed gs h
    unfold newGameFuel at h
    cases hp : placeBlocks fuel emptyBoard [] numOfBlocks (seed.getD initialSeed) with
    | none => rw [hp] at h; simp at h
    | some bs =>
      obtain ⟨b0, s0⟩ := bs
      rw [hp] at h
      simp only [Option.map_some'] at h
      have h2 := Option.some.inj h
      subst h2
      show blockCellCount b0 = numOfBlocks
      refine placeBlocks_count fuel emptyBoard [] numOfBlocks (seed.getD initialSeed) b0 s0 hp
        ?_ ?_
      · intro x
        simp [emptyBoard]
      · have hz : blockCellCount emptyBoard = 0 := by
          unfold blockCellCount emptyBoard
          simp
        rw [hz]
        omega
  · rfl

/-- C3 witness: the general count statement at the concrete default-seed
run. -/
theorem newGame_places_ten_distinct_blocks_witness :
    blockCellCount defaultSeedState.board = numOfBlocks :=
  newGame_places_ten_distinct_blocks.1 20 11 22 none defaultSeedState rfl

/-- C3 counterexample: with caller seed 65535 the LCG is at its fixed point
(`lcg 65535 = 65535`), every draw yields the coordinate (6, 6), and after the
first placement every further draw is a rejected duplicate: `new_game` never
terminates, for any amount of fuel. -/
theorem newGame_seed_65535_never_terminates :
    ¬ ∃ (fuel : Nat) (gs : GameState), newGameFuel fuel 11 22 (some 65535) = some gs := by
  have hcoord : coordRandom 65535 = (⟨6, 6⟩, 65535) := by rfl
  have key : ∀ (fuel : Nat) (board : Board) (blocks : List Coords) (remaining : Nat),
      (⟨6, 6⟩ : Coords) ∈ blocks → remaining ≠ 0 →
      placeBlocks fuel board blocks remaining 65535 = none := by
    intro fuel
    induction fuel with
    | zero => intro board blocks remaining _ _; rfl
    | succ n ih =>
      intro board blocks remaining hmem hrem
      simp only [placeBlocks, hcoord, hrem, if_false, hmem, if_true]
      exact ih board blocks remaining hmem hrem
  rintro ⟨fuel, gs, h⟩
  unfold newGameFuel at h
  cases fuel with
  | zero => simp [placeBlocks] at h
  | succ n =>
    have hstep : placeBlocks (n + 1) emptyBoard [] numOfBlocks
        ((some 65535 : Option Nat).getD initialSeed) =
        placeBlocks n (updateCell emptyBoard ⟨6, 6⟩ .Block) [⟨6, 6⟩] (numOfBlocks - 1) 65535 := by
      simp only [Option.getD_some, placeBlocks, hcoord]
      norm_num [numOfBlocks]
    rw [hstep, key n _ _ _ (by simp) (by norm_num [numOfBlocks])] at h
    simp at h


/-- The bump at the bumped player. -/
theorem bumpCount_self (counts : Nat → Nat) (p : Nat) :
    bumpCount counts p p = counts p + 1 := by
  simp [bumpCount]

/-- The bump away from the bumped player. -/
theorem bumpCount_ne (counts : Nat → Nat) (p q : Nat) (h : q ≠ p) :
    bumpCount counts p q = counts q := by
  simp [bumpCount, h]

/-- The head of a filtered column list when the head column holds the
player's square. -/
theorem filter_head_true (b : Board) (r c : Nat) (cs : List Nat) (q : Nat)
    (hsq : squareAt b r c = some q) :
    (List.filter (fun c => decide (squareAt b r c = some q)) (c :: cs)).length =
      (List.filter (fun c => decide (squareAt b r c = some q)) cs).length + 1 := by
  simp [List.filter_cons, hsq]

/-- The head of a filtered column list when the head column does not hold
the player's square. -/
theorem filter_head_false (b : Board) (r c : Nat) (cs : List Nat) (q : Nat)
    (hsq : ¬ squareAt b r c = some q) :
    (List.filter (fun c => decide (squareAt b r c = some q)) (c :: cs)).length =
      (List.filter (fun c => decide (squareAt b r c = some q)) cs).length := by
  simp [List.filter_cons, hsq]

/-- The counters after the inner column scan are bounded by the previous
counters plus the squares present in the scanned columns. -/
theorem colScan_counts_le (b : Board) (r : Nat) :
    ∀ (l : List Nat) (counts : Nat → Nat) (q : Nat),
      (colScan b r counts l).1 q ≤
        counts q + (l.filter fun c => squareAt b r c = some q).length := by
  intro l
  induction l with
  | nil => intro counts q; simp [colScan]
  | cons c cs ih =>
    intro counts q
    simp only [colScan]
    split
    · rename_i p hsq
      by_cases hq : q = p
      · subst hq
        rw [filter_head_true b r c cs q hsq]
        by_cases htrig : 3 ≤ bumpCount counts q q
        · rw [if_pos htrig]
          have hb : (bumpCount counts q, (some q : Option Nat)).1 q = counts q + 1 :=
            bumpCount_self counts q
          omega
        · rw [if_neg htrig]
          have h1 := ih (bumpCount counts q) q
          rw [bumpCount_self] at h1
          omega
      · have hne : ¬ squareAt b r c = some q := by
          rw [hsq]
          intro hcontra
          exact hq (Option.some.inj hcontra).symm
        rw [filter_head_false b r c cs q hne]
        by_cases htrig : 3 ≤ bumpCount counts p p
        · rw [if_pos htrig]
          have hb : (bumpCount counts p, (some p : Option Nat)).1 q = counts q :=
            bumpCount_ne counts p q hq
          omega
        · rw [if_neg htrig]
          have h1 := ih (bumpCount counts p) q
          rw [bumpCount_ne counts p q hq] at h1
          exact h1
    · rename_i hsq
      have hne : ¬ squareAt b r c = some q := by rw [hsq]; intro hc; cases hc
      rw [filter_head_false b r c cs q hne]
      exact ih counts q

/-- When the inner column scan triggers, the triggering player's counter has
reached 3. -/
theorem colScan_trigger_ge (b : Board) (r : Nat) :
    ∀ (l : List Nat) (counts : Nat → Nat) (p : Nat),
      (colScan b r counts l).2 = some p → 3 ≤ (colScan b r counts l).1 p := by
  intro l
  induction l with
  | nil => intro counts p h; simp [colScan] at h
  | cons c cs ih =>
    intro counts p h
    simp only [colScan] at h ⊢
    split at h
    · rename_i p' hsq
      split at h
      · rename_i htrig
        simp only [Option.some.injEq] at h
        subst h
        rw [if_pos htrig]
        exact htrig
      · rename_i htrig
        rw [if_neg htrig]
        exact ih _ p h
    · rename_i hsq
      exact ih counts p h

/-- When the inner column scan does not trigger, the counters advance by
exactly the squares of the scanned columns, and every player who collected a
square in the row stays below 3. -/
theorem colScan_none (b : Board) (r : Nat) :
    ∀ (l : List Nat) (counts : Nat → Nat),
      (colScan b r counts l).2 = none →
      (∀ q, (colScan b r counts l).1 q =
        counts q + (l.filter fun c => squareAt b r c = some q).length) ∧
      (∀ q, (l.filter fun c => squareAt b r c = some q).length ≠ 0 →
        (colScan b r counts l).1 q < 3) := by
  intro l
  induction l with
  | nil =>
    intro counts _
    constructor
    · intro q; simp [colScan]
    · intro q hq; simp at hq
  | cons c cs ih =>
    intro counts hnone
    simp only [colScan] at hnone ⊢
    split at hnone
    · rename_i p hsq
      split at hnone
      · simp at hnone
      · rename_i htrig
        obtain ⟨h1, h2⟩ := ih _ hnone
        rw [if_neg htrig]
        constructor
        · intro q
          by_cases hq : q = p
          · subst hq
            rw [filter_head_true b r c cs q hsq]
            have := h1 q
            rw [bumpCount_self] at this
            omega
          · have hne : ¬ squareAt b r c = some q := by
              rw [hsq]
              intro hcontra
              exact hq (Option.some.inj hcontra).symm
            rw [filter_head_false b r c cs q hne]
            have := h1 q
            rw [bumpCount_ne counts p q hq] at this
            exact this
        · intro q hq
          by_cases hqp : q = p
          · subst hqp
            by_cases hz : (cs.filter fun c => squareAt b r c = some q).length = 0
            · have := h1 q
              rw [bumpCount_self] at this
              rw [this, hz]
              rw [bumpCount_self] at htrig
              omega
            · exact h2 q hz
          · have hne : ¬ squareAt b r c = some q := by
              rw [hsq]
              intro hcontra
              exact hqp (Option.some.inj hcontra).symm
            rw [filter_head_false b r c cs q hne] at hq
            exact h2 q hq
    · rename_i hsq
      obtain ⟨h1, h2⟩ := ih counts hnone
      have hne : ∀ q : Nat, ¬ squareAt b r c = some q := by
        intro q hc
        rw [hsq] at hc
        cases hc
      constructor
      · intro q
        rw [filter_head_false b r c cs q (hne q)]
        exact h1 q
      · intro q hq
        rw [filter_head_false b r c cs q (hne q)] at hq
        exact h2 q hq
/-- Once a winner is recorded during the row scan, the final winner stays
recorded (it may only be overwritten by another `some`). -/
theorem rowsScan_some_persists (b : Board) :
    ∀ (rs : List Nat) (counts : Nat → Nat) (p : Nat),
      ((rowsScan b counts (some p) rs).2).isSome = true := by
  intro rs
  induction rs with
  | nil => intro counts p; simp [rowsScan]
  | cons r rs' ih =>
    intro counts p
    simp only [rowsScan]
    cases hw : (colScan b r counts (List.range (boardWidth - 1))).2 with
    | none => exact ih _ p
    | some p' => exact ih _ p'

/-- The row scan starting with no winner and all counters below 3 declares a
winner exactly when some player's cumulative square count over the scanned
rows (plus the entering counter) reaches 3. -/
theorem rowsScan_isSome_iff (b : Board) :
    ∀ (rs : List Nat) (counts : Nat → Nat),
      (∀ q, counts q < 3) →
      (((rowsScan b counts none rs).2).isSome = true ↔
        ∃ q, 3 ≤ counts q + rowsSquareTotal b q rs) := by
  intro rs
  induction rs with
  | nil =>
    intro counts hlt
    simp only [rowsScan, rowsSquareTotal, List.map_nil, List.sum_nil]
    constructor
    · intro h; simp at h
    · rintro ⟨q, hq⟩
      have := hlt q
      omega
  | cons r rs' ih =>
    intro counts hlt
    simp only [rowsScan]
    cases hw : (colScan b r counts (List.range (boardWidth - 1))).2 with
    | some p =>
      constructor
      · intro _
        refine ⟨p, ?_⟩
        have h3 := colScan_trigger_ge b r (List.range (boardWidth - 1)) counts p hw
        have hle := colScan_counts_le b r (List.range (boardWidth - 1)) counts p
        have : rowsSquareTotal b p (r :: rs') =
            rowSquareCount b r p + rowsSquareTotal b p rs' := by
          simp [rowsSquareTotal]
        rw [this]
        unfold rowSquareCount
        omega
      · intro _
        exact rowsScan_some_persists b rs' _ p
    | none =>
      obtain ⟨hexact, hlt3⟩ := colScan_none b r (List.range (boardWidth - 1)) counts hw
      have hlt' : ∀ q, (colScan b r counts (List.range (boardWidth - 1))).1 q < 3 := by
        intro q
        by_cases hz : ((List.range (boardWidth - 1)).filter
            fun c => squareAt b r c = some q).length = 0
        · rw [hexact q, hz]
          have := hlt q
          omega
        · exact hlt3 q hz
      rw [ih _ hlt']
      refine exists_congr fun q => ?_
      rw [hexact q]
      have : rowsSquareTotal b q (r :: rs') =
          rowSquareCount b r q + rowsSquareTotal b q rs' := by
        simp [rowsSquareTotal]
      rw [this]
      unfold rowSquareCount
      omega

/-- C2 (amended): `check_winner_player` declares a winner exactly when some
player's cumulative count of all-same-player 2×2 squares over every scanned
top-left corner `(r, c)`, `r < 9`, `c < 9`, reaches three — overlapping
squares each count separately, so the three squares need not be disjoint —
and on the calibration board (where the three squares ARE disjoint) the
winner is Alice (player 11, index 0). -/
theorem checkWinner_cumulative_squares :
    (∀ gs : GameState,
      ((checkWinnerPlayer gs).winner.isSome = true ↔
        gs.winner.isSome = true ∨ ∃ p, 3 ≤ countSquares gs.board p)) ∧
    (checkWinnerPlayer calibState).winner = some 11 ∧
    threeDisjointSquares calibBoard 0 := by
  refine ⟨?_, by rfl, by decide⟩
  intro gs
  unfold checkWinnerPlayer
  by_cases hw : gs.winner.isSome
  · simp [hw]
  · simp only [hw, Bool.false_eq_true, if_false, false_or]
    have hiff := rowsScan_isSome_iff gs.board (List.range (boardHeight - 1)) (fun _ => 0)
      (fun _ => by show (0 : Nat) < 3; norm_num)
    have hcount : ∀ q, countSquares gs.board q =
        rowsSquareTotal gs.board q (List.range (boardHeight - 1)) := fun _ => rfl
    cases hscan : (rowsScan gs.board (fun _ => 0) none (List.range (boardHeight - 1))).2 with
    | some p =>
      rw [hscan] at hiff
      simp only [Option.isSome_some, true_iff] at hiff
      obtain ⟨q, hq⟩ := hiff
      simp only [hscan]
      constructor
      · intro _
        refine ⟨q, ?_⟩
        rw [hcount q]
        simpa using hq
      · intro _
        simp
    | none =>
      rw [hscan] at hiff
      simp only [Option.isSome_none, Bool.false_eq_true, false_iff] at hiff
      simp only [hscan]
      constructor
      · intro hcontra
        exact absurd hcontra hw
      · rintro ⟨q, hq⟩
        rw [hcount q] at hq
        exact absurd ⟨q, by simpa using hq⟩ hiff


/-- C2 counterexample: on the 2×4 run of Alice stones the detector counts
three overlapping squares and declares Alice the winner, yet no three
PAIRWISE DISJOINT all-Alice 2×2 squares exist on that board, refuting the
claim's "exactly when ... three disjoint 2×2 squares". -/
theorem checkWinner_overlapping_squares_counterexample :
    (checkWinnerPlayer overlapState).winner = some 11 ∧
    ¬ threeDisjointSquares overlapBoard 0 := by
  exact ⟨rfl, by decide⟩


/-- `check_winner_player` never modifies the board. -/
theorem checkWinnerPlayer_board (gs : GameState) : (checkWinnerPlayer gs).board = gs.board := by
  unfold checkWinnerPlayer
  split
  · rfl
  · split
    · rfl
    · rfl

/-- The guard sequence of `drop_stone` succeeds in a play-phase, winnerless
state when it is the caller's turn and the entry cell is droppable. -/
theorem canDropStone_ok (gs : GameState) (side : Side) (position : Nat) (p : Player)
    (hphase : gs.phase = GamePhase.Play) (hw : gs.winner = none) (ht : gs.nextPlayer = p)
    (hdrop : gs.board.isStoneDroppable (side.boundCoordinates position) = true) :
    canDropStone gs side position p = Except.ok () := by
  simp [canDropStone, hphase, hw, GameState.isPlayerTurn, ht, hdrop, pure, Except.pure]

/-- The north slide loop places the stone one cell before the first blocker:
if every cell of the column strictly between the current row and row `k` is
empty and row `k` holds a block or a stone, with `1 ≤ k ≤ 9`, the loop ends
by writing `Stone(pidx)` at row `k - 1`. -/
theorem slideNorth_places (p : Player) (pidx position k : Nat)
    (hk1 : 1 ≤ k) (hk9 : k ≤ boardHeight - 1) :
    ∀ (fuel row : Nat) (gs : GameState), fuel = boardHeight - row → row ≤ k →
      (∀ i, row ≤ i → i < k → gs.board i position = Cell.Empty) →
      (gs.board k position = Cell.Block ∨ ∃ q, gs.board k position = Cell.Stone q) →
      slideNorth p pidx position fuel row gs =
        Except.ok { gs with
          board := updateCell gs.board ⟨k - 1, position⟩ (Cell.Stone pidx) } := by
  intro fuel
  induction fuel with
  | zero =>
    intro row gs hfuel hrk hemp hblk
    exfalso
    unfold boardHeight at hfuel hk9
    omega
  | succ f ih =>
    intro row gs hfuel hrk hemp hblk
    by_cases hrow : row = k
    · subst hrow
      rcases hblk with hb | ⟨q, hb⟩
      · have hcell : getCell gs.board ⟨row, position⟩ = Cell.Block := hb
        simp only [slideNorth, hcell]
        rw [if_pos (show row > 0 by omega)]
        rfl
      · have hcell : getCell gs.board ⟨row, position⟩ = Cell.Stone q := hb
        simp only [slideNorth, hcell]
        rw [if_pos (show row > 0 by omega)]
        rfl
    · have hlt : row < k := by omega
      have hcell : getCell gs.board ⟨row, position⟩ = Cell.Empty :=
        hemp row le_rfl hlt
      have hop : (⟨row, position⟩ : Coords).isOppositeCell Side.North = false := by
        simp only [Coords.isOppositeCell, boardHeight, decide_eq_false_iff_not]
        unfold boardHeight at hk9
        omega
      simp only [slideNorth, hcell, hop, Bool.false_eq_true, if_false]
      refine ih (row + 1) gs ?_ (by omega) ?_ hblk
      · unfold boardHeight at hfuel hk9 ⊢
        omega
      · intro i hi1 hi2
        exact hemp i (by omega) hi2


/-- The west slide loop places the stone one cell before the first blocker,
PROVIDED the blocker is a block (any column 1..9) or a stone strictly before
the far column (`k ≤ 8`): the `Stone` arm's guard `col < BOARD_WIDTH - 1`
rejects a far-column stone. -/
theorem slideWest_places (p : Player) (pidx position k : Nat)
    (hk1 : 1 ≤ k) (hk9 : k ≤ boardWidth - 1) :
    ∀ (fuel col : Nat) (gs : GameState), fuel = boardWidth - col → col ≤ k →
      (∀ i, col ≤ i → i < k → gs.board position i = Cell.Empty) →
      (gs.board position k = Cell.Block ∨
        (∃ q, gs.board position k = Cell.Stone q) ∧ k ≤ boardWidth - 2) →
      slideWest p pidx position fuel col gs =
        Except.ok { gs with
          board := updateCell gs.board ⟨position, k - 1⟩ (Cell.Stone pidx) } := by
  intro fuel
  induction fuel with
  | zero =>
    intro col gs hfuel hck hemp hblk
    exfalso
    unfold boardWidth at hfuel hk9
    omega
  | succ f ih =>
    intro col gs hfuel hck hemp hblk
    by_cases hcol : col = k
    · subst hcol
      rcases hblk with hb | ⟨⟨q, hb⟩, hfar⟩
      · have hcell : getCell gs.board ⟨position, col⟩ = Cell.Block := hb
        simp only [slideWest, hcell]
        rw [if_pos (show col > 0 by omega)]
        rfl
      · have hcell : getCell gs.board ⟨position, col⟩ = Cell.Stone q := hb
        simp only [slideWest, hcell]
        rw [if_pos (show col < boardWidth - 1 by unfold boardWidth at hfar ⊢; omega)]
        rfl
    · have hlt : col < k := by omega
      have hcell : getCell gs.board ⟨position, col⟩ = Cell.Empty :=
        hemp col le_rfl hlt
      have hop : (⟨position, col⟩ : Coords).isOppositeCell Side.West = false := by
        simp only [Coords.isOppositeCell, boardWidth, decide_eq_false_iff_not]
        unfold boardWidth at hk9
        omega
      simp only [slideWest, hcell, hop, Bool.false_eq_true, if_false]
      refine ih (col + 1) gs ?_ (by omega) ?_ hblk
      · unfold boardWidth at hfuel hk9 ⊢
        omega
      · intro i hi1 hi2
        exact hemp i (by omega) hi2

/-- The west slide loop FAILS with `InvalidStonePosition` when the first
blocker is a stone in the far column 9: the `Stone` arm's guard
`col < BOARD_WIDTH - 1` is false there. -/
theorem slideWest_stone_far (p : Player) (pidx position : Nat) :
    ∀ (fuel col : Nat) (gs : GameState), fuel = boardWidth - col →
      col ≤ boardWidth - 1 →
      (∀ i, col ≤ i → i < boardWidth - 1 → gs.board position i = Cell.Empty) →
      (∃ q, gs.board position (boardWidth - 1) = Cell.Stone q) →
      slideWest p pidx position fuel col gs = Except.error GameError.InvalidStonePosition := by
  intro fuel
  induction fuel with
  | zero =>
    intro col gs hfuel hck hemp hblk
    exfalso
    unfold boardWidth at hfuel hck
    omega
  | succ f ih =>
    intro col gs hfuel hck hemp hblk
    by_cases hcol : col = boardWidth - 1
    · subst hcol
      obtain ⟨q, hb⟩ := hblk
      have hcell : getCell gs.board ⟨position, boardWidth - 1⟩ = Cell.Stone q := hb
      simp only [slideWest, hcell]
      rw [if_neg (show ¬(boardWidth - 1 < boardWidth - 1) by omega)]
      rfl
    · have hlt : col < boardWidth - 1 := by omega
      have hcell : getCell gs.board ⟨position, col⟩ = Cell.Empty :=
        hemp col le_rfl hlt
      have hop : (⟨position, col⟩ : Coords).isOppositeCell Side.West = false := by
        simp only [Coords.isOppositeCell, decide_eq_false_iff_not]
        omega
      simp only [slideWest, hcell, hop, Bool.false_eq_true, if_false]
      refine ih (col + 1) gs ?_ (by omega) ?_ hblk
      · unfold boardWidth at hfuel hlt ⊢
        omega
      · intro i hi1 hi2
        exact hemp i (by omega) hi2

/-- The south slide loop places the stone one row after the first blocker
met while moving up from row 9: if rows strictly between the blocker row `j`
and the current row are empty and row `j` holds a block or a stone with
`j ≤ 8`, the loop writes `Stone(pidx)` at row `j + 1`. -/
theorem slideSouth_places (p : Player) (pidx position j : Nat)
    (hj : j ≤ boardHeight - 2) :
    ∀ (fuel row : Nat) (gs : GameState), fuel = row + 1 → j ≤ row →
      row ≤ boardHeight - 1 →
      (∀ i, j < i → i ≤ row → gs.board i position = Cell.Empty) →
      (gs.board j position = Cell.Block ∨ ∃ q, gs.board j position = Cell.Stone q) →
      slideSouth p pidx position fuel row gs =
        Except.ok { gs with
          board := updateCell gs.board ⟨j + 1, position⟩ (Cell.Stone pidx) } := by
  intro fuel
  induction fuel with
  | zero =>
    intro row gs hfuel hjr hr9 hemp hblk
    exfalso
    omega
  | succ f ih =>
    intro row gs hfuel hjr hr9 hemp hblk
    by_cases hrow : row = j
    · subst hrow
      rcases hblk with hb | ⟨q, hb⟩
      · have hcell : getCell gs.board ⟨row, position⟩ = Cell.Block := hb
        simp only [slideSouth, hcell]
        rw [if_pos (show row < boardHeight - 1 by unfold boardHeight at hj ⊢; omega)]
        rfl
      · have hcell : getCell gs.board ⟨row, position⟩ = Cell.Stone q := hb
        simp only [slideSouth, hcell]
        rw [if_pos (show row < boardHeight - 1 by unfold boardHeight at hj ⊢; omega)]
        rfl
    · have hgt : j < row := by omega
      have hcell : getCell gs.board ⟨row, position⟩ = Cell.Empty :=
        hemp row hgt le_rfl
      have hop : (⟨row, position⟩ : Coords).isOppositeCell Side.South = false := by
        simp only [Coords.isOppositeCell, decide_eq_false_iff_not]
        omega
      have hnz : ¬(row = 0) := by omega
      simp only [slideSouth, hcell, hop, Bool.false_eq_true, if_false, hnz]
      refine ih (row - 1) gs (by omega) (by omega) (by omega) ?_ hblk
      intro i hi1 hi2
      exact hemp i hi1 (by omega)

/-- The east slide loop places the stone one column after the first blocker
met while moving left from column 9: if columns strictly between the blocker
column `j` and the current column are empty and column `j` holds a block or a
stone with `j ≤ 8`, the loop writes `Stone(pidx)` at column `j + 1`. -/
theorem slideEast_places (p : Player) (pidx position j : Nat)
    (hj : j ≤ boardWidth - 2) :
    ∀ (fuel col : Nat) (gs : GameState), fuel = col + 1 → j ≤ col →
      col ≤ boardWidth - 1 →
      (∀ i, j < i → i ≤ col → gs.board position i = Cell.Empty) →
      (gs.board position j = Cell.Block ∨ ∃ q, gs.board position j = Cell.Stone q) →
      slideEast p pidx position fuel col gs =
        Except.ok { gs with
          board := updateCell gs.board ⟨position, j + 1⟩ (Cell.Stone pidx) } := by
  intro fuel
  induction fuel with
  | zero =>
    intro col gs hfuel hjc hc9 hemp hblk
    exfalso
    omega
  | succ f ih =>
    intro col gs hfuel hjc hc9 hemp hblk
    by_cases hcol : col = j
    · subst hcol
      rcases hblk with hb | ⟨q, hb⟩
      · have hcell : getCell gs.board ⟨position, col⟩ = Cell.Block := hb
        simp only [slideEast, hcell]
        rw [if_pos (show col < boardWidth - 1 by unfold boardWidth at hj ⊢; omega)]
        rfl
      · have hcell : getCell gs.board ⟨position, col⟩ = Cell.Stone q := hb
        simp only [slideEast, hcell]
        rw [if_pos (show col < boardWidth - 1 by unfold boardWidth at hj ⊢; omega)]
        rfl
    · have hgt : j < col := by omega
      have hcell : getCell gs.board ⟨position, col⟩ = Cell.Empty :=
        hemp col hgt le_rfl
      have hop : (⟨position, col⟩ : Coords).isOppositeCell Side.East = false := by
        simp only [Coords.isOppositeCell, decide_eq_false_iff_not]
        omega
      have hnz : ¬(col = 0) := by omega
      simp only [slideEast, hcell, hop, Bool.false_eq_true, if_false, hnz]
      refine ih (col - 1) gs (by omega) (by omega) (by omega) ?_ hblk
      intro i hi1 hi2
      exact hemp i hi1 (by omega)


/-- Binding a successful `Except` is application. -/
theorem ok_bind {ε α β : Type} (a : α) (f : α → Except ε β) :
    (Except.ok a : Except ε α) >>= f = f a := rfl

/-- The `pure` of the `Except` monad is `Except.ok`. -/
theorem except_pure_eq {ε α : Type} (a : α) : (pure a : Except ε α) = Except.ok a := rfl

/-- C4 (amended): in phase `Play`, on the mover's turn, when the stone's
traversal first meets a `Block` or a `Stone` at path step `k ≥ 1` after `k`
empty cells, the stone is placed in the cell just before the blocker — except
that a WEST drop whose first blocker is a `Stone` in the far column 9 fails
with `InvalidStonePosition` (the source's asymmetric guard); when the entry
cell itself is blocked the call fails with `InvalidStonePosition`; the
placement cell is always inside the board; and concretely, with a block at
row 9 column 1, a north drop at position 1 lands at (8, 1). -/
theorem dropStone_blocker_placement :
    (∀ (gs : GameState) (p : Player) (side : Side) (position k : Nat),
      gs.phase = GamePhase.Play → gs.winner = none → gs.nextPlayer = p →
      position ≤ boardWidth - 1 → 1 ≤ k → k ≤ boardHeight - 1 →
      (∀ i, i < k → getCell gs.board (pathCoord side position i) = Cell.Empty) →
      (getCell gs.board (pathCoord side position k) = Cell.Block ∨
        ∃ q, getCell gs.board (pathCoord side position k) = Cell.Stone q) →
      ¬(side = Side.West ∧ k = boardWidth - 1 ∧
          getCell gs.board (pathCoord side position k) ≠ Cell.Block) →
      ∃ gs', dropStone gs p side position = .ok gs' ∧
        gs'.board = updateCell gs.board (pathCoord side position (k - 1))
          (Cell.Stone (gs.playerIndex p))) ∧
    (∀ (gs : GameState) (p : Player) (side : Side) (position : Nat),
      gs.phase = GamePhase.Play → gs.winner = none → gs.nextPlayer = p →
      (getCell gs.board (side.boundCoordinates position) = Cell.Block ∨
        ∃ q, getCell gs.board (side.boundCoordinates position) = Cell.Stone q) →
      dropStone gs p side position = .error GameError.InvalidStonePosition) ∧
    (∀ (side : Side) (position k : Nat), 1 ≤ k → k ≤ boardHeight - 1 →
      position ≤ boardWidth - 1 →
      (pathCoord side position (k - 1)).insideBoard = true) ∧
    ((dropStone northState 11 Side.North 1).toOption.map
      (fun g => getCell g.board ⟨8, 1⟩) = some (Cell.Stone 0)) := by
  refine ⟨?_, ?_, ?_, by rfl⟩
  · intro gs p side position k hphase hw ht hpos hk1 hk9 hemp hblk hnw
    have hposlt : position < boardWidth := by unfold boardWidth at hpos ⊢; omega
    cases side with
    | North =>
      have hentry : getCell gs.board ⟨0, position⟩ = Cell.Empty := hemp 0 hk1
      have hdropable : gs.board.isStoneDroppable (Side.boundCoordinates Side.North position)
          = true := by
        simp [Board.isStoneDroppable, Side.boundCoordinates, Coords.insideBoard, hentry,
          Cell.isStoneDroppable, boardHeight, boardWidth]
        unfold boardWidth at hposlt
        omega
      have hcan := canDropStone_ok gs Side.North position p hphase hw ht hdropable
      have hslide := slideNorth_places p (gs.playerIndex p) position k hk1 hk9
        boardHeight 0 gs (by omega) (by omega)
        (fun i _ hi => hemp i hi) hblk
      cases hres : dropStone gs p Side.North position with
      | error e =>
        exfalso
        unfold dropStone at hres
        simp only [hcan, ok_bind, hslide, except_pure_eq] at hres
        exact Except.noConfusion hres
      | ok gs2 =>
        refine ⟨gs2, rfl, ?_⟩
        unfold dropStone at hres
        simp only [hcan, ok_bind, hslide, except_pure_eq] at hres
        have hgs := Except.ok.inj hres
        rw [← hgs, checkWinnerPlayer_board]
        rfl
    | West =>
      have hentry : getCell gs.board ⟨position, 0⟩ = Cell.Empty := hemp 0 hk1
      have hdropable : gs.board.isStoneDroppable (Side.boundCoordinates Side.West position)
          = true := by
        simp [Board.isStoneDroppable, Side.boundCoordinates, Coords.insideBoard, hentry,
          Cell.isStoneDroppable, boardHeight, boardWidth]
        unfold boardWidth at hposlt
        omega
      have hcan := canDropStone_ok gs Side.West position p hphase hw ht hdropable
      have hblk' : gs.board position k = Cell.Block ∨
          (∃ q, gs.board position k = Cell.Stone q) ∧ k ≤ boardWidth - 2 := by
        rcases hblk with hb | ⟨q, hb⟩
        · exact Or.inl hb
        · refine Or.inr ⟨⟨q, hb⟩, ?_⟩
          by_contra hfar
          refine hnw ⟨rfl, ?_, ?_⟩
          · unfold boardWidth at hfar ⊢
            unfold boardHeight at hk9
            omega
          · rw [hb]
            intro hcontra
            cases hcontra
      have hslide := slideWest_places p (gs.playerIndex p) position k hk1
        (by unfold boardWidth; unfold boardHeight at hk9; omega)
        boardWidth 0 gs (by omega) (by omega)
        (fun i _ hi => hemp i hi) hblk'
      cases hres : dropStone gs p Side.West position with
      | error e =>
        exfalso
        unfold dropStone at hres
        simp only [hcan, ok_bind, hslide, except_pure_eq] at hres
        exact Except.noConfusion hres
      | ok gs2 =>
        refine ⟨gs2, rfl, ?_⟩
        unfold dropStone at hres
        simp only [hcan, ok_bind, hslide, except_pure_eq] at hres
        have hgs := Except.ok.inj hres
        rw [← hgs, checkWinnerPlayer_board]
        rfl
    | South =>
      have hentry : getCell gs.board ⟨boardHeight - 1, position⟩ = Cell.Empty := hemp 0 hk1
      have hdropable : gs.board.isStoneDroppable (Side.boundCoordinates Side.South position)
          = true := by
        have hcellE : getCell gs.board (Side.boundCoordinates Side.South position) =
            Cell.Empty := hentry
        unfold Board.isStoneDroppable
        rw [hcellE]
        simp [Coords.insideBoard, Side.boundCoordinates, Cell.isStoneDroppable,
          boardHeight, boardWidth]
        unfold boardWidth at hposlt
        omega
      have hcan := canDropStone_ok gs Side.South position p hphase hw ht hdropable
      have hemp' : ∀ i, boardHeight - 1 - k < i → i ≤ boardHeight - 1 →
          gs.board i position = Cell.Empty := by
        intro i hji hi9
        have hik : boardHeight - 1 - i < k := by
          unfold boardHeight at *
          omega
        have hmem := hemp (boardHeight - 1 - i) hik
        simp only [pathCoord] at hmem
        have heq : boardHeight - 1 - (boardHeight - 1 - i) = i := by
          unfold boardHeight at *
          omega
        rw [heq] at hmem
        exact hmem
      have hblk' : gs.board (boardHeight - 1 - k) position = Cell.Block ∨
          ∃ q, gs.board (boardHeight - 1 - k) position = Cell.Stone q := hblk
      have hslide := slideSouth_places p (gs.playerIndex p) position (boardHeight - 1 - k)
        (by unfold boardHeight at *; omega)
        boardHeight (boardHeight - 1) gs (by unfold boardHeight; omega)
        (by omega) (by omega) hemp' hblk'
      have htarget : boardHeight - 1 - (k - 1) = boardHeight - 1 - k + 1 := by
        unfold boardHeight at *
        omega
      cases hres : dropStone gs p Side.South position with
      | error e =>
        exfalso
        unfold dropStone at hres
        simp only [hcan, ok_bind, hslide, except_pure_eq] at hres
        exact Except.noConfusion hres
      | ok gs2 =>
        refine ⟨gs2, rfl, ?_⟩
        unfold dropStone at hres
        simp only [hcan, ok_bind, hslide, except_pure_eq] at hres
        have hgs := Except.ok.inj hres
        rw [← hgs, checkWinnerPlayer_board]
        simp only [pathCoord]
        rw [htarget]
        rfl
    | East =>
      have hentry : getCell gs.board ⟨position, boardWidth - 1⟩ = Cell.Empty := hemp 0 hk1
      have hdropable : gs.board.isStoneDroppable (Side.boundCoordinates Side.East position)
          = true := by
        have hcellE : getCell gs.board (Side.boundCoordinates Side.East position) =
            Cell.Empty := hentry
        unfold Board.isStoneDroppable
        rw [hcellE]
        simp [Coords.insideBoard, Side.boundCoordinates, Cell.isStoneDroppable,
          boardHeight, boardWidth]
        unfold boardWidth at hposlt
        omega
      have hcan := canDropStone_ok gs Side.East position p hphase hw ht hdropable
      have hemp' : ∀ i, boardWidth - 1 - k < i → i ≤ boardWidth - 1 →
          gs.board position i = Cell.Empty := by
        intro i hji hi9
        have hik : boardWidth - 1 - i < k := by
          unfold boardWidth at *
          unfold boardHeight at hk9
          omega
        have hmem := hemp (boardWidth - 1 - i) hik
        simp only [pathCoord] at hmem
        have heq : boardWidth - 1 - (boardWidth - 1 - i) = i := by
          unfold boardWidth at *
          omega
        rw [heq] at hmem
        exact hmem
      have hblk' : gs.board position (boardWidth - 1 - k) = Cell.Block ∨
          ∃ q, gs.board position (boardWidth - 1 - k) = Cell.Stone q := hblk
      have hslide := slideEast_places p (gs.playerIndex p) position (boardWidth - 1 - k)
        (by unfold boardWidth at *; unfold boardHeight at hk9; omega)
        boardWidth (boardWidth - 1) gs (by unfold boardWidth; omega)
        (by omega) (by omega) hemp' hblk'
      have htarget : boardWidth - 1 - (k - 1) = boardWidth - 1 - k + 1 := by
        unfold boardWidth at *
        unfold boardHeight at hk9
        omega
      cases hres : dropStone gs p Side.East position with
      | error e =>
        exfalso
        unfold dropStone at hres
        simp only [hcan, ok_bind, hslide, except_pure_eq] at hres
        exact Except.noConfusion hres
      | ok gs2 =>
        refine ⟨gs2, rfl, ?_⟩
        unfold dropStone at hres
        simp only [hcan, ok_bind, hslide, except_pure_eq] at hres
        have hgs := Except.ok.inj hres
        rw [← hgs, checkWinnerPlayer_board]
        simp only [pathCoord]
        rw [htarget]
        rfl
  · intro gs p side position hphase hw ht hcellblk
    have hnotdrop : gs.board.isStoneDroppable (side.boundCoordinates position) = false := by
      rcases hcellblk with hb | ⟨q, hb⟩ <;>
        simp [Board.isStoneDroppable, hb, Cell.isStoneDroppable]
    have hcan : canDropStone gs side position p = .error GameError.InvalidStonePosition := by
      simp [canDropStone, hphase, hw, GameState.isPlayerTurn, ht, hnotdrop, throw, throwThe,
        MonadExceptOf.throw]
    unfold dropStone
    rw [hcan]
    rfl
  · intro side position k hk1 hk9 hpos
    cases side <;>
      simp [pathCoord, Coords.insideBoard, boardWidth, boardHeight] <;>
      · unfold boardWidth at hpos
        unfold boardHeight at hk9
        omega


/-- C4 witness: the placement statement applied to the concrete north-drop
board of the spec (block at row 9, column 1, first blocker at path step 9):
the stone lands at (8, 1). -/
theorem dropStone_blocker_placement_witness :
    ∃ gs', dropStone northState 11 Side.North 1 = .ok gs' ∧
      gs'.board = updateCell northState.board (pathCoord Side.North 1 (9 - 1))
        (Cell.Stone (northState.playerIndex 11)) :=
  dropStone_blocker_placement.1 northState 11 Side.North 1 9 rfl rfl rfl (by decide)
    (by decide) (by decide) (by decide) (Or.inl (by decide)) (by decide)

/-- C4 counterexample: a west drop over an empty row whose far column 9 holds
an opponent stone returns `InvalidStonePosition` instead of placing the stone
at column 8 as the claim requires. -/
theorem dropStone_west_far_stone_errors :
    dropStone westState 11 Side.West 0 = .error GameError.InvalidStonePosition ∧
    getCell westState.board ⟨0, 9⟩ = Cell.Stone 1 ∧
    getCell westState.board ⟨0, 8⟩ = Cell.Empty := by
  exact ⟨rfl, rfl, rfl⟩

end Theorems
